import Mathlib

/-!
Shallow embedding of the cppp search engine (src/perfect_phylogeny.c and
src/decision_tree.c).  Machine integers are modelled as `Nat` (the `uint32_t`
fields never wrap on the paths exercised here: every decrement is guarded by
an assertion that the corresponding activity flag is positive), the
`current_states` array as `List Int` because the program stores the sentinel
`-1` in it, C `assert` failures as `Option.none`, and the two igraph
undirected graphs as finite sets of normalized vertex pairs.
-/

/-- Modelled from the spec: the constants BLACK, RED and SPECIES come from the
missing header perfect_phylogeny.h; the spec fixes only that the removed color
is encoded as RED + 1, so BLACK and RED are two distinct small naturals. -/
def BLACK : Nat := 0

/-- Modelled from the spec: see BLACK. -/
def RED : Nat := 1

/-- Modelled from the spec: the removed color, encoded as RED + 1 (spec 9). -/
def REMOVED : Nat := RED + 1

/-- An undirected edge, normalized so that the smaller endpoint comes first:
igraph stores undirected edges without regard to endpoint order. -/
def edgeN (u v : Nat) : Nat × Nat := if u ≤ v then (u, v) else (v, u)

/-- The state record state_s of perfect_phylogeny.h, as used by the two source
files.  `matrix` is `none` when the C pointer would be NULL/uninitialized
(init_state and read_state never allocate it). -/
structure state_s where
  num_species_orig : Nat
  num_characters_orig : Nat
  num_species : Nat
  num_characters : Nat
  matrix : Option (List Nat)
  species : List Nat
  characters : List Nat
  current_states : List Int
  colors : List Nat
  operation : Nat
  realize : Nat
  tried_characters : List Nat
  character_queue : List Nat
  red_black : Finset (Nat × Nat)
  conflict : Finset (Nat × Nat)
deriving DecidableEq

/-- Array lengths agree with the original instance sizes (true of every state
the C program builds; C reads out of bounds otherwise). -/
def wf (st : state_s) : Prop :=
  st.species.length = st.num_species_orig ∧
  st.characters.length = st.num_characters_orig ∧
  st.current_states.length = st.num_characters_orig ∧
  st.colors.length = st.num_characters_orig

instance : DecidablePred wf := fun st => by
  unfold wf; infer_instance

/-- Number of indices below `n` whose entry in `arr` is nonzero (the counting
loops of check_state). -/
def countActive (arr : List Nat) (n : Nat) : Nat :=
  ((Finset.range n).filter (fun i => arr.getD i 0 ≠ 0)).card

/-- Number of indices below `n` whose entry is not -1 (check_state). -/
def countCur (arr : List Int) (n : Nat) : Nat :=
  ((Finset.range n).filter (fun i => arr.getD i 0 ≠ -1)).card

/-- check_state from perfect_phylogeny.c.  The C test `num_species == -1`
detects uint32 wrap-around below zero, which cannot occur here because every
decrement is assert-guarded; the remaining conditions are kept verbatim. -/
def check_state (st : state_s) : Nat :=
  (if st.num_species_orig < st.num_species then 1 else 0) +
  (if st.num_characters_orig < st.num_characters then 2 else 0) +
  (if countActive st.species st.num_species_orig ≠ st.num_species then 4 else 0) +
  (if countActive st.characters st.num_characters_orig ≠ st.num_characters then 8 else 0) +
  (if countCur st.current_states st.num_characters_orig ≠ st.num_characters then 16 else 0)

/-- Vertices adjacent to `v` (igraph_neighbors on an undirected graph). -/
def neighborsOf (g : Finset (Nat × Nat)) (v : Nat) : Finset Nat :=
  g.biUnion (fun e => if e.1 = v then {e.2} else if e.2 = v then {e.1} else ∅)

/-- One step of breadth-first closure: add all neighbors of the current set. -/
def adjStep (g : Finset (Nat × Nat)) (s : Finset Nat) : Finset Nat :=
  s ∪ s.biUnion (neighborsOf g)

/-- igraph_subcomponent: all vertices reachable from `v`.  Iterating the
neighbor-closure `nverts` times reaches a fixpoint because the graph has
`nverts` vertices. -/
def subcomponent (nverts : Nat) (g : Finset (Nat × Nat)) (v : Nat) : Finset Nat :=
  (adjStep g)^[nverts] {v}

/-- Vertex `v` has no incident edge (igraph_es_size of incident edges = 0). -/
def isolatedV (g : Finset (Nat × Nat)) (v : Nat) : Prop :=
  ∀ e ∈ g, e.1 ≠ v ∧ e.2 ≠ v

instance (g : Finset (Nat × Nat)) (v : Nat) : Decidable (isolatedV g v) := by
  unfold isolatedV; infer_instance

/-- igraph_delete_edges of all edges incident on `v`. -/
def deleteIncident (g : Finset (Nat × Nat)) (v : Nat) : Finset (Nat × Nat) :=
  g.filter (fun e => e.1 ≠ v ∧ e.2 ≠ v)

/-- delete_species from perfect_phylogeny.c; `none` is an assertion failure. -/
def delete_species (st : state_s) (s : Nat) : Option state_s :=
  if s < st.num_species_orig ∧ 0 < st.species.getD s 0 then
    some { st with species := st.species.set s 0, num_species := st.num_species - 1 }
  else none

/-- delete_character from perfect_phylogeny.c; `none` is an assertion
failure. -/
def delete_character (st : state_s) (c : Nat) : Option state_s :=
  if c < st.num_characters_orig ∧ 0 < st.characters.getD c 0 ∧
      st.current_states.getD c 0 ≠ -1 then
    some { st with
           characters := st.characters.set c 0
           current_states := st.current_states.set c (-1)
           num_characters := st.num_characters - 1 }
  else none

/-- The species scan of cleanup: for each index, an active species with no
incident red-black edge is deleted.  The graph is never modified here, so the
scan order only matters for the mutable arrays. -/
def cl_species : List Nat → state_s → Option state_s
  | [], st => some st
  | s :: rest, st =>
    if st.species.getD s 0 ≠ 0 ∧ isolatedV st.red_black s then
      match delete_species st s with
      | none => none
      | some st2 => cl_species rest st2
    else cl_species rest st

/-- The character scan of cleanup, on vertex ids `num_species_orig + c`. -/
def cl_chars : List Nat → state_s → Option state_s
  | [], st => some st
  | c :: rest, st =>
    if st.characters.getD c 0 ≠ 0 ∧ isolatedV st.red_black (st.num_species_orig + c) then
      match delete_character st c with
      | none => none
      | some st2 => cl_chars rest st2
    else cl_chars rest st

/-- cleanup from perfect_phylogeny.c: delete null species, then null
characters. -/
def cleanup (st : state_s) : Option state_s :=
  match cl_species (List.range st.num_species_orig) st with
  | none => none
  | some st1 => cl_chars (List.range st1.num_characters_orig) st1

/-- copy_state from perfect_phylogeny.c: all fields are duplicated (the matrix
is shared), except that tried_characters and character_queue are reset to
NULL; it asserts check_state(src) == 0. -/
def copy_state (src : state_s) : Option state_s :=
  if check_state src = 0 then
    some { src with tried_characters := [], character_queue := [] }
  else none

/-- The species found in the component of the realized character's vertex that
are not adjacent to it: the contents of the `not_adjacent` vector built by
realize_character (the loop keeps only `v < num_species_orig` with `v ≠ c`). -/
def speciesD (st : state_s) : Finset Nat :=
  let c := st.num_species_orig + st.realize
  let conn := subcomponent (st.num_species_orig + st.num_characters_orig) st.red_black c
  let temp := conn \ neighborsOf st.red_black c
  temp.filter (fun v => v < st.num_species_orig ∧ v ≠ c)

/-- The set `D` as the specification words it: the whole connected component
of the character's vertex minus its neighbors and the vertex itself (no
restriction to species).  Used to compare the spec's claims with the code's
`speciesD`. -/
def claimD (st : state_s) : Finset Nat :=
  let c := st.num_species_orig + st.realize
  let conn := subcomponent (st.num_species_orig + st.num_characters_orig) st.red_black c
  (conn \ neighborsOf st.red_black c) \ {c}

/-- The common tail of every accepting path of realize_character: the
assertion check_state == 0 before and after cleanup, and the cleanup call
itself. -/
def accept_finish (dst : state_s) : Option (state_s × Bool) :=
  if check_state dst = 0 then
    match cleanup dst with
    | none => none
    | some d2 => if check_state d2 = 0 then some (d2, true) else none
  else none

/-- realize_character from perfect_phylogeny.c.  The target character is
`src.realize`; the connected component and neighborhood are computed before
all edges incident on the character's vertex are deleted; the BLACK branch
re-adds edges to the non-adjacent species of the component, the RED branch
either rejects (when such a species exists) or removes the character.  Note
that the edge deletion precedes the branch, so a rejected realization still
returns a graph stripped of those edges, and that `dst.realize` is already
`src.realize` via copy_state. -/
def realize_character (src : state_s) : Option (state_s × Bool) :=
  match copy_state src with
  | none => none
  | some dst0 =>
    let character := src.realize
    let v := src.num_species_orig + character
    let color := src.colors.getD character 0
    let notAdj := speciesD src
    let dst1 : state_s := { dst0 with red_black := deleteIncident dst0.red_black v }
    if color = BLACK then
      accept_finish { dst1 with
        red_black := dst1.red_black ∪ notAdj.image (fun x => edgeN v x)
        operation := 1
        colors := dst1.colors.set character RED
        current_states := dst1.current_states.set character 1 }
    else if color = RED then
      if notAdj = ∅ then
        match delete_character
            { dst1 with
              operation := 2
              colors := dst1.colors.set character (RED + 1) } character with
        | none => none
        | some d2 => accept_finish d2
      else
        some ({ dst1 with operation := 0 }, false)
    else
      accept_finish dst1

/-- init_state from perfect_phylogeny.c: fresh arrays, empty graphs on the
right vertex counts, empty lists, operation 0, realize 0.  The C function
leaves `matrix` untouched (never allocated), modelled as `none`. -/
def init_state (nspecies nchars : Nat) : state_s :=
  { num_species_orig := nspecies
    num_characters_orig := nchars
    num_species := nspecies
    num_characters := nchars
    matrix := none
    species := List.replicate nspecies 1
    characters := List.replicate nchars 1
    current_states := List.replicate nchars 0
    colors := List.replicate nchars BLACK
    operation := 0
    realize := 0
    tried_characters := []
    character_queue := []
    red_black := ∅
    conflict := ∅ }

instance : Inhabited state_s := ⟨init_state 0 0⟩

/-- matrix_get_value from perfect_phylogeny.c: row-major access through the
current number of characters (equal to the original one at load time, the
only time the matrix is read). -/
def matrix_get_value (st : state_s) (s c : Nat) : Nat :=
  (st.matrix.getD []).getD (c + st.num_characters * s) 0

/-- Value 1 when some species exhibits the pair of values `(x, y)` on the
column pair `(c1, c2)`: the `states[x][y]` flag array of the conflict-graph
loop of read_instance_from_filename (well defined for binary matrices; the C
code indexes out of bounds otherwise). -/
def stateFlag (st : state_s) (c1 c2 x y : Nat) : Nat :=
  if ∃ s ∈ Finset.range st.num_species,
      matrix_get_value st s c1 = x ∧ matrix_get_value st s c2 = y then 1 else 0

/-- The conflict-edge test of read_instance_from_filename: all four flags are
set, i.e. their sum is 4. -/
def conflictCond (st : state_s) (c1 c2 : Nat) : Prop :=
  stateFlag st c1 c2 0 0 + stateFlag st c1 c2 0 1 +
    stateFlag st c1 c2 1 0 + stateFlag st c1 c2 1 1 = 4

instance (st : state_s) (c1 c2 : Nat) : Decidable (conflictCond st c1 c2) := by
  unfold conflictCond; infer_instance

/-- read_instance_from_filename from perfect_phylogeny.c, minus the file
handling: `cells` is the row-major matrix of the instance body.  The red-black
graph gets an edge `(s, c + num_species)` for each 1-cell; the conflict graph
gets an edge `(c1, c2)`, `c1 < c2`, whenever all four value pairs occur. -/
def read_instance (nspecies nchars : Nat) (cells : List Nat) : state_s :=
  let st := { init_state nspecies nchars with matrix := some cells }
  let rb := (((Finset.range nspecies) ×ˢ (Finset.range nchars)).filter
      (fun p => matrix_get_value st p.1 p.2 = 1)).image
      (fun p => edgeN p.1 (p.2 + nspecies))
  let cg := (((Finset.range nchars) ×ˢ (Finset.range nchars)).filter
      (fun p => p.1 < p.2 ∧ conflictCond st p.1 p.2)).image
      (fun p => edgeN p.1 p.2)
  { st with
    red_black := rb
    conflict := cg }

/-- The JSON snapshot document plus the contents of the two graph-exchange
sidecar files.  Optional fields model JSON keys that may be absent (or, for
the matrix, a NULL pointer on the writing side). -/
structure snapshot_doc where
  num_species_orig : Nat
  num_characters_orig : Nat
  num_species : Nat
  num_characters : Nat
  realize : Nat
  tried_characters : Option (List Nat)
  character_queue : Option (List Nat)
  matrix : Option (List Nat)
  current : List Int
  species : List Nat
  characters : List Nat
  red_black : Finset (Nat × Nat)
  conflict : Finset (Nat × Nat)
deriving DecidableEq

/-- json_get_list from perfect_phylogeny.c: in non-optional mode a missing or
ill-typed field is an assertion failure, otherwise the array is converted; in
optional mode the function returns NULL (the empty list) without looking at
the document at all. -/
def json_get_list (obj : Option (List Nat)) (optional : Bool) : Option (List Nat) :=
  if optional then some [] else
    match obj with
    | some l => some l
    | none => none

/-- build_json_state and write_state from perfect_phylogeny.c: both assert
check_state == 0; the document carries the scalar fields, the three arrays,
the two lists and the two graphs, but neither `colors` nor `operation`. -/
def write_state (st : state_s) : Option snapshot_doc :=
  if check_state st = 0 then
    some { num_species_orig := st.num_species_orig
           num_characters_orig := st.num_characters_orig
           num_species := st.num_species
           num_characters := st.num_characters
           realize := st.realize
           tried_characters := some st.tried_characters
           character_queue := some st.character_queue
           matrix := st.matrix
           current := st.current_states
           species := st.species
           characters := st.characters
           red_black := st.red_black
           conflict := st.conflict }
  else none

/-- read_state from perfect_phylogeny.c: init_state on the original sizes,
then overwrite the serialized fields.  The two lists are read through
json_get_list in optional mode, the matrix is never read, and `colors` and
`operation` keep their init_state values; check_state == 0 is asserted at the
end. -/
def read_state (doc : snapshot_doc) : Option state_s :=
  match json_get_list doc.tried_characters true,
        json_get_list doc.character_queue true with
  | some tried, some queue =>
    let st := { init_state doc.num_species_orig doc.num_characters_orig with
                realize := doc.realize
                tried_characters := tried
                character_queue := queue
                num_species := doc.num_species
                num_characters := doc.num_characters
                current_states := doc.current
                species := doc.species
                characters := doc.characters
                red_black := doc.red_black
                conflict := doc.conflict }
    if check_state st = 0 then some st else none
  | _, _ => none

/-- Functional update of the slot array of the decision-tree driver. -/
def upds (states : Nat → state_s) (i : Nat) (v : state_s) : Nat → state_s :=
  fun j => if j = i then v else states j

/-- next_node from decision_tree.c.  Modelled from the spec where the header
is missing: the `realized_char` field of a state is its `realize` field, and
the three-argument call realize_character(modified, current, c) stands for
setting `current.realize` to `c` and calling the two-argument operator
(spec 9a, 4.3).  First visits populate the queue from the strategy; an empty
queue backtracks; otherwise the head candidate is popped, the previous
realized character is prepended to tried_characters, and the driver descends
exactly when the produced state has operation > 0, resetting the child's two
lists. -/
def next_node (states : Nat → state_s) (level : Nat)
    (node_init : state_s → List Nat) : Option ((Nat → state_s) × Int) :=
  let current := states level
  let current := if current.tried_characters = [] ∧ current.character_queue = []
    then { current with character_queue := node_init current } else current
  if current.character_queue = [] then
    some (upds states level current, (level : Int) - 1)
  else
    let to_realize := current.character_queue.headD 0
    let current := { current with
      character_queue := current.character_queue.tail
      tried_characters := current.realize :: current.tried_characters
      realize := to_realize }
    match realize_character current with
    | none => none
    | some (modified, _) =>
      let states := upds states level current
      if 0 < modified.operation then
        match copy_state modified with
        | none => none
        | some nxt =>
          some (upds states (level + 1)
                  { nxt with
                    character_queue := []
                    tried_characters := [] },
                (level : Int) + 1)
      else
        some (states, (level : Int))

/-- Outcome of exhaustive_search: on success, the pairs printed by the final
loop (line index, the landed slot's realized character). -/
inductive SearchOutcome where
  | success (emitted : List (Nat × Nat)) : SearchOutcome
  | failure : SearchOutcome
deriving DecidableEq

/-- The for-loop of exhaustive_search from decision_tree.c, with explicit
fuel (`none` on fuel exhaustion or an assertion failure): test for level -1,
run cleanup on the landed slot, report success when it has no species left,
otherwise advance through next_node. -/
def search_loop (node_init : state_s → List Nat) :
    Nat → (Nat → state_s) → Int → Option SearchOutcome
  | 0, _, _ => none
  | fuel + 1, states, level =>
    if level = -1 then some SearchOutcome.failure
    else
      let lv := level.toNat
      match cleanup (states lv) with
      | none => none
      | some cleaned =>
        let states := upds states lv cleaned
        if cleaned.num_species = 0 then
          some (SearchOutcome.success
            ((List.range (lv + 1)).map (fun i => (i, cleaned.realize))))
        else
          match next_node states lv node_init with
          | none => none
          | some (states2, level2) => search_loop node_init fuel states2 level2

/-- exhaustive_search from decision_tree.c: one next_node call from level 0,
then the loop. -/
def exhaustive_search (node_init : state_s → List Nat) (fuel : Nat)
    (states : Nat → state_s) : Option SearchOutcome :=
  match next_node states 0 node_init with
  | none => none
  | some (states2, level2) => search_loop node_init fuel states2 level2

/-- The natural-order strategy of the spec (4.5): all active, not REMOVED
characters in index order. -/
def natOrder (st : state_s) : List Nat :=
  (List.range st.num_characters_orig).filter
    (fun c => st.characters.getD c 0 ≠ 0 ∧ st.colors.getD c 0 ≠ REMOVED)

/-- The replay loop of main() in perfect_phylogeny.c: each listed character is
realized (the working state's realize field is set first, matching the C
assignment stp->realize = value) and the result copied back, asserting
check_state afterwards; an empty list runs cleanup once instead. -/
def replay_exec (st : state_s) : List Nat → Option state_s
  | [] => cleanup st
  | c :: rest => replay_steps { st with realize := c } (c :: rest)
where
  replay_steps (st : state_s) : List Nat → Option state_s
  | [] => some st
  | c :: rest =>
    match realize_character { st with realize := c } with
    | none => none
    | some (st2, _) =>
      match copy_state st2 with
      | none => none
      | some st3 =>
        if check_state st3 = 0 then replay_steps st3 rest else none

/-- Every active character still has a live current state: the pointwise
precondition under which the character scan of cleanup cannot hit the
current_states assertion of delete_character. -/
def activeImpliesCur (st : state_s) : Prop :=
  ∀ c, st.characters.getD c 0 ≠ 0 → st.current_states.getD c 0 ≠ -1

instance : DecidablePred activeImpliesCur := fun st =>
  decidable_of_iff (∀ c ∈ Finset.range st.characters.length,
      st.characters.getD c 0 ≠ 0 → st.current_states.getD c 0 ≠ -1) (by
    constructor
    · intro h c hact
      refine h c (Finset.mem_range.mpr ?_) hact
      by_contra hc
      push_neg at hc
      rw [List.getD_eq_getElem?_getD, List.getElem?_eq_none (by omega)] at hact
      simp at hact
    · intro h c _ hact
      exact h c hact)

/-- The part of the specification invariant (spec 8, property 2) that the code
actually maintains: current_state and char_active move together, and a REMOVED
color implies the character is inactive.  The full three-way equivalence
fails because cleanup deactivates characters without recoloring them. -/
def inv2 (st : state_s) : Prop :=
  ∀ c, c < st.num_characters_orig →
    ((st.current_states.getD c 0 = -1 ↔ st.characters.getD c 0 = 0) ∧
     (st.colors.getD c 0 = REMOVED → st.characters.getD c 0 = 0))

instance : DecidablePred inv2 := fun st => by
  unfold inv2
  infer_instance

/-! Concrete states used by the end-to-end scenarios of the specification and
as evaluation points for the theorems below. -/

/-- The one-species, one-character instance with matrix [ [1] ]. -/
def init11 : state_s := read_instance 1 1 [1]

/-- The S6 instance of the spec: matrix 2 x 2, rows 1 0 / 1 1. -/
def s6init : state_s := read_instance 2 2 [1, 0, 1, 1]

/-- The S1 instance of the spec: matrix 2 x 2, rows 1 0 / 0 1. -/
def s1init : state_s := read_instance 2 2 [1, 0, 0, 1]

/-- The slot array of the driver loaded with the S1 instance at level 0. -/
def s1states : Nat → state_s := upds (fun _ => init_state 0 0) 0 s1init

/-- The S2 instance of the spec: matrix 3 x 3, rows 1 1 0 / 1 0 1 / 0 1 1. -/
def triangle : state_s := read_instance 3 3 [1, 1, 0, 1, 0, 1, 0, 1, 1]

/-- A valid state with one species and two characters whose character 0 is RED
with a red edge to species 0, while character 1 is BLACK and also linked to
species 0; the component of character 0's vertex contains character 1's vertex
as a non-neighbor. -/
def stA : state_s :=
  { num_species_orig := 1
    num_characters_orig := 2
    num_species := 1
    num_characters := 2
    matrix := none
    species := [1]
    characters := [1, 1]
    current_states := [1, 0]
    colors := [RED, BLACK]
    operation := 1
    realize := 0
    tried_characters := []
    character_queue := []
    red_black := {(0, 1), (0, 2)}
    conflict := ∅ }

/-- A valid state with two species and two characters whose character 0 is RED
and adjacent to species 0 only, while species 1 is in the same component
through the BLACK character 1. -/
def stB : state_s :=
  { num_species_orig := 2
    num_characters_orig := 2
    num_species := 2
    num_characters := 2
    matrix := none
    species := [1, 1]
    characters := [1, 1]
    current_states := [1, 0]
    colors := [RED, BLACK]
    operation := 1
    realize := 0
    tried_characters := []
    character_queue := []
    red_black := {(0, 2), (0, 3), (1, 3)}
    conflict := ∅ }

/-- A valid one-species, one-character state whose character is RED with a red
edge, with nonempty tried/queue lists; its character vertex is universal in
its component. -/
def stC6 : state_s :=
  { num_species_orig := 1
    num_characters_orig := 1
    num_species := 1
    num_characters := 1
    matrix := none
    species := [1]
    characters := [1]
    current_states := [1]
    colors := [RED]
    operation := 1
    realize := 0
    tried_characters := [5]
    character_queue := [7]
    red_black := {(0, 1)}
    conflict := ∅ }

/-- A valid state whose only character has been removed (inactive, current -1)
but whose color is still RED, as cleanup leaves it. -/
def sRem : state_s :=
  { num_species_orig := 1
    num_characters_orig := 1
    num_species := 0
    num_characters := 0
    matrix := none
    species := [0]
    characters := [0]
    current_states := [-1]
    colors := [RED]
    operation := 1
    realize := 0
    tried_characters := []
    character_queue := []
    red_black := ∅
    conflict := ∅ }

/-- A snapshot document with nonempty tried_characters and character_queue
arrays, to show that read_state ignores them. -/
def docW : snapshot_doc :=
  { num_species_orig := 1
    num_characters_orig := 1
    num_species := 1
    num_characters := 1
    realize := 0
    tried_characters := some [3, 4]
    character_queue := some [7]
    matrix := none
    current := [0]
    species := [1]
    characters := [1]
    red_black := {(0, 1)}
    conflict := ∅ }

/-- The S6 instance targeted at its BLACK character 1, whose realization has
species 0 in the component but not adjacent. -/
def stC3w : state_s := { s6init with realize := 1 }

/-! Helper lemmas about list updates and the check_state counters. -/

theorem getD_set_self {α : Type} (l : List α) (i : Nat) (v d : α) (h : i < l.length) :
    (l.set i v).getD i d = v := by
  rw [List.getD_eq_getElem?_getD, List.getElem?_set_self', List.getElem?_eq_getElem h]
  rfl

theorem getD_set_ne {α : Type} (l : List α) (i j : Nat) (v d : α) (h : i ≠ j) :
    (l.set i v).getD j d = l.getD j d := by
  rw [List.getD_eq_getElem?_getD, List.getElem?_set_ne h, ← List.getD_eq_getElem?_getD]

theorem set_oob {α : Type} (l : List α) (i : Nat) (v : α) (h : l.length ≤ i) :
    (l.set i v) = l :=
  List.set_eq_of_length_le h

theorem getD_pos_lt (a : List Nat) (i : Nat) (h : a.getD i 0 ≠ 0) : i < a.length := by
  by_contra hc
  push_neg at hc
  rw [List.getD_eq_getElem?_getD, List.getElem?_eq_none (by omega)] at h
  simp at h

theorem getD_neg_lt (a : List Int) (i : Nat) (h : a.getD i 0 = -1) : i < a.length := by
  by_contra hc
  push_neg at hc
  rw [List.getD_eq_getElem?_getD, List.getElem?_eq_none (by omega)] at h
  simp at h

theorem countActive_congr (a b : List Nat) (n : Nat)
    (h : ∀ i, i < n → (a.getD i 0 ≠ 0 ↔ b.getD i 0 ≠ 0)) :
    countActive a n = countActive b n := by
  unfold countActive
  congr 1
  apply Finset.filter_congr
  intro i hi
  rw [Finset.mem_range] at hi
  simp only [h i hi]

theorem countActive_set_zero (a : List Nat) (n i : Nat) (hi : i < n)
    (h : a.getD i 0 ≠ 0) :
    countActive (a.set i 0) n = countActive a n - 1 := by
  have hlen : i < a.length := getD_pos_lt a i h
  unfold countActive
  have hmem : i ∈ (Finset.range n).filter (fun j => a.getD j 0 ≠ 0) := by
    rw [Finset.mem_filter, Finset.mem_range]
    exact ⟨hi, h⟩
  have hset : (Finset.range n).filter (fun j => (a.set i 0).getD j 0 ≠ 0) =
      ((Finset.range n).filter (fun j => a.getD j 0 ≠ 0)).erase i := by
    ext j
    rw [Finset.mem_erase, Finset.mem_filter, Finset.mem_filter]
    by_cases hji : j = i
    · subst hji
      rw [getD_set_self a j 0 0 hlen]
      simp
    · rw [getD_set_ne a i j 0 0 (fun hc => hji hc.symm)]
      tauto
  rw [hset, Finset.card_erase_of_mem hmem]

theorem countActive_pos (a : List Nat) (n i : Nat) (hi : i < n) (h : a.getD i 0 ≠ 0) :
    0 < countActive a n := by
  unfold countActive
  apply Finset.card_pos.mpr
  refine ⟨i, ?_⟩
  rw [Finset.mem_filter, Finset.mem_range]
  exact ⟨hi, h⟩

theorem countCur_set_neg (a : List Int) (n i : Nat) (hi : i < n)
    (h : a.getD i 0 ≠ -1) (hlen : i < a.length) :
    countCur (a.set i (-1)) n = countCur a n - 1 := by
  unfold countCur
  have hmem : i ∈ (Finset.range n).filter (fun j => a.getD j 0 ≠ -1) := by
    rw [Finset.mem_filter, Finset.mem_range]
    exact ⟨hi, h⟩
  have hset : (Finset.range n).filter (fun j => (a.set i (-1)).getD j 0 ≠ -1) =
      ((Finset.range n).filter (fun j => a.getD j 0 ≠ -1)).erase i := by
    ext j
    rw [Finset.mem_erase, Finset.mem_filter, Finset.mem_filter]
    by_cases hji : j = i
    · subst hji
      rw [getD_set_self a j (-1) 0 hlen]
      simp
    · rw [getD_set_ne a i j (-1) 0 (fun hc => hji hc.symm)]
      tauto
  rw [hset, Finset.card_erase_of_mem hmem]

theorem countCur_pos (a : List Int) (n i : Nat) (hi : i < n) (h : a.getD i 0 ≠ -1) :
    0 < countCur a n := by
  unfold countCur
  apply Finset.card_pos.mpr
  refine ⟨i, ?_⟩
  rw [Finset.mem_filter, Finset.mem_range]
  exact ⟨hi, h⟩

theorem countCur_set_keep (a : List Int) (n i : Nat) (v : Int) (hv : v ≠ -1)
    (h : a.getD i 0 ≠ -1) :
    countCur (a.set i v) n = countCur a n := by
  unfold countCur
  congr 1
  apply Finset.filter_congr
  intro j hj
  by_cases hji : j = i
  · subst hji
    by_cases hlen : j < a.length
    · rw [getD_set_self a j v 0 hlen]
      exact iff_of_true hv h
    · rw [set_oob a j v (by omega)]
  · rw [getD_set_ne a i j v 0 (fun hc => hji hc.symm)]

theorem check_state_zero_iff (st : state_s) : check_state st = 0 ↔
    st.num_species ≤ st.num_species_orig ∧
    st.num_characters ≤ st.num_characters_orig ∧
    countActive st.species st.num_species_orig = st.num_species ∧
    countActive st.characters st.num_characters_orig = st.num_characters ∧
    countCur st.current_states st.num_characters_orig = st.num_characters := by
  unfold check_state
  constructor
  · intro h
    split_ifs at h <;> omega
  · intro h
    rw [if_neg (by omega), if_neg (by omega), if_neg (by omega), if_neg (by omega),
      if_neg (by omega)]

/-! Characterizations of the deletion primitives and the cleanup scans. -/

theorem delete_species_eq (st st2 : state_s) (s : Nat)
    (h : delete_species st s = some st2) :
    st2 = { st with species := st.species.set s 0, num_species := st.num_species - 1 } ∧
    s < st.num_species_orig ∧ 0 < st.species.getD s 0 := by
  unfold delete_species at h
  split_ifs at h with hc
  · exact ⟨(Option.some_injective _ h).symm, hc.1, hc.2⟩

theorem delete_character_eq (st st2 : state_s) (c : Nat)
    (h : delete_character st c = some st2) :
    st2 = { st with
            characters := st.characters.set c 0
            current_states := st.current_states.set c (-1)
            num_characters := st.num_characters - 1 } ∧
    c < st.num_characters_orig ∧ 0 < st.characters.getD c 0 ∧
    st.current_states.getD c 0 ≠ -1 := by
  unfold delete_character at h
  split_ifs at h with hc
  · exact ⟨(Option.some_injective _ h).symm, hc.1, hc.2.1, hc.2.2⟩

theorem cl_species_spec (l : List Nat) (st st2 : state_s)
    (h : cl_species l st = some st2) :
    st2.red_black = st.red_black ∧ st2.characters = st.characters ∧
    st2.current_states = st.current_states ∧ st2.num_characters = st.num_characters ∧
    st2.colors = st.colors ∧ st2.num_species_orig = st.num_species_orig ∧
    st2.num_characters_orig = st.num_characters_orig ∧ st2.matrix = st.matrix ∧
    st2.operation = st.operation ∧ st2.realize = st.realize ∧
    st2.tried_characters = st.tried_characters ∧
    st2.character_queue = st.character_queue ∧ st2.conflict = st.conflict ∧
    st2.species.length = st.species.length := by
  induction l generalizing st with
  | nil =>
    simp only [cl_species] at h
    cases h
    simp
  | cons a rest ih =>
    simp only [cl_species] at h
    split_ifs at h with hc
    · cases hd : delete_species st a with
      | none => rw [hd] at h; cases h
      | some st' =>
        rw [hd] at h
        obtain ⟨he, -, -⟩ := delete_species_eq st st' a hd
        have hfin := ih st' h
        subst he
        simpa [List.length_set] using hfin
    · exact ih st h

theorem cl_species_keep (l : List Nat) (st st2 : state_s)
    (h : cl_species l st = some st2) (s : Nat)
    (hs : s ∉ l ∨ ¬ isolatedV st.red_black s) :
    st2.species.getD s 0 = st.species.getD s 0 := by
  induction l generalizing st with
  | nil =>
    simp only [cl_species] at h
    cases h
    rfl
  | cons a rest ih =>
    simp only [cl_species] at h
    split_ifs at h with hc
    · cases hd : delete_species st a with
      | none => rw [hd] at h; cases h
      | some st' =>
        rw [hd] at h
        obtain ⟨he, -, -⟩ := delete_species_eq st st' a hd
        have hsa : s ≠ a := by
          rcases hs with hs | hs
          · exact fun hx => hs (hx ▸ List.mem_cons_self a rest)
          · exact fun hx => hs (hx ▸ hc.2)
        have hrest : s ∉ rest ∨ ¬ isolatedV st'.red_black s := by
          rcases hs with hs | hs
          · exact Or.inl (fun hx => hs (List.mem_cons_of_mem a hx))
          · subst he; exact Or.inr hs
        have hfin := ih st' h hrest
        rw [hfin]
        subst he
        exact getD_set_ne st.species a s 0 0 (fun hx => hsa hx.symm)
    · refine ih st h ?_
      rcases hs with hs | hs
      · exact Or.inl (fun hx => hs (List.mem_cons_of_mem a hx))
      · exact Or.inr hs

theorem cl_species_zero (l : List Nat) (st st2 : state_s)
    (h : cl_species l st = some st2) (s : Nat)
    (hs : s ∈ l) (hiso : isolatedV st.red_black s) :
    st2.species.getD s 0 = 0 := by
  induction l generalizing st with
  | nil => cases hs
  | cons a rest ih =>
    simp only [cl_species] at h
    split_ifs at h with hc
    · cases hd : delete_species st a with
      | none => rw [hd] at h; cases h
      | some st' =>
        rw [hd] at h
        obtain ⟨he, -, -⟩ := delete_species_eq st st' a hd
        by_cases hsa : s = a
        · subst hsa
          by_cases hmem : s ∈ rest
          · exact ih st' h hmem (by subst he; exact hiso)
          · have hkeep := cl_species_keep rest st' st2 h s (Or.inl hmem)
            rw [hkeep]
            subst he
            show (st.species.set s 0).getD s 0 = 0
            by_cases hlen : s < st.species.length
            · exact getD_set_self st.species s 0 0 hlen
            · rw [set_oob st.species s 0 (by omega), List.getD_eq_getElem?_getD,
                List.getElem?_eq_none (by omega)]
              rfl
        · have hmem : s ∈ rest := by
            rcases List.mem_cons.mp hs with hx | hx
            · exact absurd hx hsa
            · exact hx
          exact ih st' h hmem (by subst he; exact hiso)
    · by_cases hsa : s = a
      · subst hsa
        have h0 : st.species.getD s 0 = 0 := by
          by_contra hnz
          exact hc ⟨hnz, hiso⟩
        by_cases hmem : s ∈ rest
        · exact ih st h hmem hiso
        · rw [cl_species_keep rest st st2 h s (Or.inl hmem)]
          exact h0
      · have hmem : s ∈ rest := by
          rcases List.mem_cons.mp hs with hx | hx
          · exact absurd hx hsa
          · exact hx
        exact ih st h hmem hiso

theorem cl_species_isSome (l : List Nat) (st : state_s)
    (hl : ∀ s ∈ l, s < st.num_species_orig) :
    (cl_species l st).isSome := by
  induction l generalizing st with
  | nil => simp [cl_species]
  | cons a rest ih =>
    simp only [cl_species]
    split_ifs with hc
    · have hd : delete_species st a =
          some { st with species := st.species.set a 0, num_species := st.num_species - 1 } := by
        unfold delete_species
        rw [if_pos ⟨hl a (List.mem_cons_self a rest), Nat.pos_of_ne_zero hc.1⟩]
      rw [hd]
      exact ih _ (fun s hs => hl s (List.mem_cons_of_mem a hs))
    · exact ih st (fun s hs => hl s (List.mem_cons_of_mem a hs))

theorem cl_species_check (l : List Nat) (st st2 : state_s)
    (hl : ∀ s ∈ l, s < st.num_species_orig)
    (h : cl_species l st = some st2) (h0 : check_state st = 0) :
    check_state st2 = 0 := by
  induction l generalizing st with
  | nil =>
    simp only [cl_species] at h
    cases h
    exact h0
  | cons a rest ih =>
    simp only [cl_species] at h
    split_ifs at h with hc
    · cases hd : delete_species st a with
      | none => rw [hd] at h; cases h
      | some st' =>
        rw [hd] at h
        obtain ⟨he, ha, hpos⟩ := delete_species_eq st st' a hd
        have hcnt : countActive (st.species.set a 0) st.num_species_orig =
            countActive st.species st.num_species_orig - 1 :=
          countActive_set_zero st.species st.num_species_orig a ha hc.1
        have hcp : 0 < countActive st.species st.num_species_orig :=
          countActive_pos st.species st.num_species_orig a ha hc.1
        rw [check_state_zero_iff] at h0
        have h0' : check_state st' = 0 := by
          rw [check_state_zero_iff]
          subst he
          refine ⟨by simp; omega, h0.2.1, ?_, h0.2.2.2.1, h0.2.2.2.2⟩
          show countActive (st.species.set a 0) st.num_species_orig = st.num_species - 1
          omega
        refine ih st' ?_ h h0'
        intro s hs
        have hss := hl s (List.mem_cons_of_mem a hs)
        subst he
        exact hss
    · exact ih st (fun s hs => hl s (List.mem_cons_of_mem a hs)) h h0

theorem cl_species_id (l : List Nat) (st : state_s)
    (h : ∀ s ∈ l, ¬(st.species.getD s 0 ≠ 0 ∧ isolatedV st.red_black s)) :
    cl_species l st = some st := by
  induction l with
  | nil => simp [cl_species]
  | cons a rest ih =>
    simp only [cl_species]
    rw [if_neg (h a (List.mem_cons_self a rest))]
    exact ih (fun s hs => h s (List.mem_cons_of_mem a hs))

theorem cl_chars_spec (l : List Nat) (st st2 : state_s)
    (h : cl_chars l st = some st2) :
    st2.red_black = st.red_black ∧ st2.species = st.species ∧
    st2.num_species = st.num_species ∧
    st2.colors = st.colors ∧ st2.num_species_orig = st.num_species_orig ∧
    st2.num_characters_orig = st.num_characters_orig ∧ st2.matrix = st.matrix ∧
    st2.operation = st.operation ∧ st2.realize = st.realize ∧
    st2.tried_characters = st.tried_characters ∧
    st2.character_queue = st.character_queue ∧ st2.conflict = st.conflict ∧
    st2.characters.length = st.characters.length ∧
    st2.current_states.length = st.current_states.length := by
  induction l generalizing st with
  | nil =>
    simp only [cl_chars] at h
    cases h
    simp
  | cons a rest ih =>
    simp only [cl_chars] at h
    split_ifs at h with hc
    · cases hd : delete_character st a with
      | none => rw [hd] at h; cases h
      | some st' =>
        rw [hd] at h
        obtain ⟨he, -, -⟩ := delete_character_eq st st' a hd
        have hfin := ih st' h
        subst he
        simpa [List.length_set] using hfin
    · exact ih st h

theorem cl_chars_keep (l : List Nat) (st st2 : state_s)
    (h : cl_chars l st = some st2) (c : Nat)
    (hs : c ∉ l ∨ ¬ isolatedV st.red_black (st.num_species_orig + c) ∨
      st.characters.getD c 0 = 0) :
    st2.characters.getD c 0 = st.characters.getD c 0 ∧
    st2.current_states.getD c 0 = st.current_states.getD c 0 := by
  induction l generalizing st with
  | nil =>
    simp only [cl_chars] at h
    cases h
    exact ⟨rfl, rfl⟩
  | cons a rest ih =>
    simp only [cl_chars] at h
    split_ifs at h with hc
    · cases hd : delete_character st a with
      | none => rw [hd] at h; cases h
      | some st' =>
        rw [hd] at h
        obtain ⟨he, -, hpos, -⟩ := delete_character_eq st st' a hd
        have hsa : c ≠ a := by
          rcases hs with hs | hs | hs
          · exact fun hx => hs (hx ▸ List.mem_cons_self a rest)
          · exact fun hx => hs (hx ▸ hc.2)
          · exact fun hx => hc.1 (hx ▸ hs)
        have hchar : st'.characters.getD c 0 = st.characters.getD c 0 := by
          subst he
          exact getD_set_ne st.characters a c 0 0 (fun hx => hsa hx.symm)
        have hcur : st'.current_states.getD c 0 = st.current_states.getD c 0 := by
          subst he
          exact getD_set_ne st.current_states a c (-1) 0 (fun hx => hsa hx.symm)
        have hrest : c ∉ rest ∨ ¬ isolatedV st'.red_black (st'.num_species_orig + c) ∨
            st'.characters.getD c 0 = 0 := by
          rcases hs with hs | hs | hs
          · exact Or.inl (fun hx => hs (List.mem_cons_of_mem a hx))
          · refine Or.inr (Or.inl ?_)
            subst he
            exact hs
          · exact Or.inr (Or.inr (hchar.trans hs))
        obtain ⟨hf1, hf2⟩ := ih st' h hrest
        exact ⟨hf1.trans hchar, hf2.trans hcur⟩
    · refine ih st h ?_
      rcases hs with hs | hs | hs
      · exact Or.inl (fun hx => hs (List.mem_cons_of_mem a hx))
      · exact Or.inr (Or.inl hs)
      · exact Or.inr (Or.inr hs)

theorem cl_chars_zero (l : List Nat) (st st2 : state_s)
    (h : cl_chars l st = some st2) (c : Nat)
    (hs : c ∈ l) (hiso : isolatedV st.red_black (st.num_species_orig + c)) :
    st2.characters.getD c 0 = 0 := by
  induction l generalizing st with
  | nil => cases hs
  | cons a rest ih =>
    simp only [cl_chars] at h
    split_ifs at h with hc
    · cases hd : delete_character st a with
      | none => rw [hd] at h; cases h
      | some st' =>
        rw [hd] at h
        obtain ⟨he, -, -⟩ := delete_character_eq st st' a hd
        by_cases hsa : c = a
        · subst hsa
          have hzero : st'.characters.getD c 0 = 0 := by
            subst he
            show (st.characters.set c 0).getD c 0 = 0
            by_cases hlen : c < st.characters.length
            · exact getD_set_self st.characters c 0 0 hlen
            · rw [set_oob st.characters c 0 (by omega), List.getD_eq_getElem?_getD,
                List.getElem?_eq_none (by omega)]
              rfl
          rw [(cl_chars_keep rest st' st2 h c (Or.inr (Or.inr hzero))).1]
          exact hzero
        · have hmem : c ∈ rest := by
            rcases List.mem_cons.mp hs with hx | hx
            · exact absurd hx hsa
            · exact hx
          exact ih st' h hmem (by subst he; exact hiso)
    · by_cases hsa : c = a
      · subst hsa
        have h0 : st.characters.getD c 0 = 0 := by
          by_contra hnz
          exact hc ⟨hnz, hiso⟩
        rw [(cl_chars_keep rest st st2 h c (Or.inr (Or.inr h0))).1]
        exact h0
      · have hmem : c ∈ rest := by
          rcases List.mem_cons.mp hs with hx | hx
          · exact absurd hx hsa
          · exact hx
        exact ih st h hmem hiso

theorem cl_chars_neg (l : List Nat) (st st2 : state_s)
    (h : cl_chars l st = some st2) (c : Nat)
    (hs : c ∈ l) (hiso : isolatedV st.red_black (st.num_species_orig + c))
    (hact : st.characters.getD c 0 ≠ 0) (hlen : c < st.current_states.length) :
    st2.current_states.getD c 0 = -1 := by
  induction l generalizing st with
  | nil => cases hs
  | cons a rest ih =>
    simp only [cl_chars] at h
    split_ifs at h with hc
    · cases hd : delete_character st a with
      | none => rw [hd] at h; cases h
      | some st' =>
        rw [hd] at h
        obtain ⟨he, -, -⟩ := delete_character_eq st st' a hd
        by_cases hsa : c = a
        · subst hsa
          have hval : st'.current_states.getD c 0 = -1 := by
            subst he
            exact getD_set_self st.current_states c (-1) 0 hlen
          have hzero : st'.characters.getD c 0 = 0 := by
            subst he
            show (st.characters.set c 0).getD c 0 = 0
            by_cases hl2 : c < st.characters.length
            · exact getD_set_self st.characters c 0 0 hl2
            · rw [set_oob st.characters c 0 (by omega), List.getD_eq_getElem?_getD,
                List.getElem?_eq_none (by omega)]
              rfl
          rw [(cl_chars_keep rest st' st2 h c (Or.inr (Or.inr hzero))).2]
          exact hval
        · have hmem : c ∈ rest := by
            rcases List.mem_cons.mp hs with hx | hx
            · exact absurd hx hsa
            · exact hx
          refine ih st' h hmem (by subst he; exact hiso) ?_ ?_
          · subst he
            rw [getD_set_ne st.characters a c 0 0 (fun hx => hsa hx.symm)]
            exact hact
          · subst he
            simpa [List.length_set] using hlen
    · by_cases hsa : c = a
      · subst hsa
        exact absurd ⟨hact, hiso⟩ hc
      · have hmem : c ∈ rest := by
          rcases List.mem_cons.mp hs with hx | hx
          · exact absurd hx hsa
          · exact hx
        exact ih st h hmem hiso hact hlen

theorem cl_chars_isSome (l : List Nat) (st : state_s)
    (hl : ∀ c ∈ l, c < st.num_characters_orig) (hinv : activeImpliesCur st) :
    (cl_chars l st).isSome := by
  induction l generalizing st with
  | nil => simp [cl_chars]
  | cons a rest ih =>
    simp only [cl_chars]
    split_ifs with hc
    · have hd : delete_character st a =
          some { st with
                 characters := st.characters.set a 0
                 current_states := st.current_states.set a (-1)
                 num_characters := st.num_characters - 1 } := by
        unfold delete_character
        rw [if_pos ⟨hl a (List.mem_cons_self a rest),
          Nat.pos_of_ne_zero hc.1, hinv a hc.1⟩]
      rw [hd]
      refine ih _ (fun c hcm => hl c (List.mem_cons_of_mem a hcm)) ?_
      intro c hact
      show (st.current_states.set a (-1)).getD c 0 ≠ -1
      by_cases hca : c = a
      · subst hca
        exfalso
        apply hact
        show (st.characters.set c 0).getD c 0 = 0
        by_cases hlen : c < st.characters.length
        · exact getD_set_self st.characters c 0 0 hlen
        · rw [set_oob st.characters c 0 (by omega), List.getD_eq_getElem?_getD,
            List.getElem?_eq_none (by omega)]
          rfl
      · rw [getD_set_ne st.current_states a c (-1) 0 (fun hx => hca hx.symm)]
        apply hinv
        intro hz
        apply hact
        show (st.characters.set a 0).getD c 0 = 0
        rw [getD_set_ne st.characters a c 0 0 (fun hx => hca hx.symm)]
        exact hz
    · exact ih st (fun c hcm => hl c (List.mem_cons_of_mem a hcm)) hinv

theorem cl_chars_check (l : List Nat) (st st2 : state_s)
    (hl : ∀ c ∈ l, c < st.num_characters_orig)
    (hwlen : st.num_characters_orig ≤ st.current_states.length)
    (h : cl_chars l st = some st2) (h0 : check_state st = 0) :
    check_state st2 = 0 := by
  induction l generalizing st with
  | nil =>
    simp only [cl_chars] at h
    cases h
    exact h0
  | cons a rest ih =>
    simp only [cl_chars] at h
    split_ifs at h with hc
    · cases hd : delete_character st a with
      | none => rw [hd] at h; cases h
      | some st' =>
        rw [hd] at h
        obtain ⟨he, ha, hpos, hcur⟩ := delete_character_eq st st' a hd
        have hcnt : countActive (st.characters.set a 0) st.num_characters_orig =
            countActive st.characters st.num_characters_orig - 1 :=
          countActive_set_zero st.characters st.num_characters_orig a ha hc.1
        have hcp : 0 < countActive st.characters st.num_characters_orig :=
          countActive_pos st.characters st.num_characters_orig a ha hc.1
        have hlen : a < st.current_states.length := by omega
        have hcc : countCur (st.current_states.set a (-1)) st.num_characters_orig =
            countCur st.current_states st.num_characters_orig - 1 :=
          countCur_set_neg st.current_states st.num_characters_orig a ha hcur hlen
        have hccp : 0 < countCur st.current_states st.num_characters_orig :=
          countCur_pos st.current_states st.num_characters_orig a ha hcur
        rw [check_state_zero_iff] at h0
        obtain ⟨g1, g2, g3, g4, g5⟩ := h0
        have h0' : check_state st' = 0 := by
          rw [check_state_zero_iff]
          subst he
          refine ⟨g1, by simp; omega, g3, ?_, ?_⟩
          · show countActive (st.characters.set a 0) st.num_characters_orig =
              st.num_characters - 1
            omega
          · show countCur (st.current_states.set a (-1)) st.num_characters_orig =
              st.num_characters - 1
            omega
        refine ih st' ?_ ?_ h h0'
        · intro c hcm
          have hcc2 := hl c (List.mem_cons_of_mem a hcm)
          subst he
          exact hcc2
        · subst he
          simpa [List.length_set] using hwlen
    · exact ih st (fun c hcm => hl c (List.mem_cons_of_mem a hcm)) hwlen h h0

theorem cl_chars_id (l : List Nat) (st : state_s)
    (h : ∀ c ∈ l, ¬(st.characters.getD c 0 ≠ 0 ∧
      isolatedV st.red_black (st.num_species_orig + c))) :
    cl_chars l st = some st := by
  induction l with
  | nil => simp [cl_chars]
  | cons a rest ih =>
    simp only [cl_chars]
    rw [if_neg (h a (List.mem_cons_self a rest))]
    exact ih (fun c hcm => h c (List.mem_cons_of_mem a hcm))

/-! Assembled cleanup-level lemmas. -/

theorem cleanup_spec (st T : state_s) (h : cleanup st = some T) :
    T.red_black = st.red_black ∧ T.colors = st.colors ∧
    T.num_species_orig = st.num_species_orig ∧
    T.num_characters_orig = st.num_characters_orig ∧ T.matrix = st.matrix ∧
    T.operation = st.operation ∧ T.realize = st.realize ∧
    T.tried_characters = st.tried_characters ∧
    T.character_queue = st.character_queue ∧ T.conflict = st.conflict ∧
    T.species.length = st.species.length ∧
    T.characters.length = st.characters.length ∧
    T.current_states.length = st.current_states.length := by
  unfold cleanup at h
  cases h1 : cl_species (List.range st.num_species_orig) st with
  | none => rw [h1] at h; cases h
  | some st1 =>
    rw [h1] at h
    have s1 := cl_species_spec _ _ _ h1
    have c1 := cl_chars_spec _ _ _ h
    refine ⟨c1.1.trans s1.1, c1.2.2.2.1.trans s1.2.2.2.2.1, ?_, ?_, ?_, ?_, ?_, ?_, ?_, ?_, ?_, ?_, ?_⟩
    · exact c1.2.2.2.2.1.trans s1.2.2.2.2.2.1
    · exact c1.2.2.2.2.2.1.trans s1.2.2.2.2.2.2.1
    · exact c1.2.2.2.2.2.2.1.trans s1.2.2.2.2.2.2.2.1
    · exact c1.2.2.2.2.2.2.2.1.trans s1.2.2.2.2.2.2.2.2.1
    · exact c1.2.2.2.2.2.2.2.2.1.trans s1.2.2.2.2.2.2.2.2.2.1
    · exact c1.2.2.2.2.2.2.2.2.2.1.trans s1.2.2.2.2.2.2.2.2.2.2.1
    · exact c1.2.2.2.2.2.2.2.2.2.2.1.trans s1.2.2.2.2.2.2.2.2.2.2.2.1
    · exact c1.2.2.2.2.2.2.2.2.2.2.2.1.trans s1.2.2.2.2.2.2.2.2.2.2.2.2.1
    · exact (congrArg List.length c1.2.1).trans s1.2.2.2.2.2.2.2.2.2.2.2.2.2
    · exact c1.2.2.2.2.2.2.2.2.2.2.2.2.1.trans (congrArg List.length s1.2.1)
    · exact c1.2.2.2.2.2.2.2.2.2.2.2.2.2.trans (congrArg List.length s1.2.2.1)

theorem cleanup_isSome (st : state_s) (hinv : activeImpliesCur st) :
    (cleanup st).isSome := by
  unfold cleanup
  cases h1 : cl_species (List.range st.num_species_orig) st with
  | none =>
    have := cl_species_isSome (List.range st.num_species_orig) st
      (fun s hs => List.mem_range.mp hs)
    rw [h1] at this
    cases this
  | some st1 =>
    have s1 := cl_species_spec _ _ _ h1
    refine cl_chars_isSome _ _ (fun c hc => List.mem_range.mp hc) ?_
    intro c hact
    rw [s1.2.2.1]
    rw [s1.2.1] at hact
    exact hinv c hact

theorem cleanup_check (st T : state_s)
    (hwlen : st.num_characters_orig ≤ st.current_states.length)
    (h : cleanup st = some T) (h0 : check_state st = 0) : check_state T = 0 := by
  unfold cleanup at h
  cases h1 : cl_species (List.range st.num_species_orig) st with
  | none => rw [h1] at h; cases h
  | some st1 =>
    rw [h1] at h
    have s1 := cl_species_spec _ _ _ h1
    have hch1 : check_state st1 = 0 :=
      cl_species_check _ _ _ (fun s hs => List.mem_range.mp hs) h1 h0
    refine cl_chars_check _ _ _ (fun c hc => List.mem_range.mp hc) ?_ h hch1
    rw [s1.2.2.1, s1.2.2.2.2.2.2.1]
    exact hwlen

theorem cleanup_char_keep (st T : state_s) (h : cleanup st = some T) (c : Nat)
    (hc : ¬ isolatedV st.red_black (st.num_species_orig + c) ∨
      st.characters.getD c 0 = 0) :
    T.characters.getD c 0 = st.characters.getD c 0 ∧
    T.current_states.getD c 0 = st.current_states.getD c 0 := by
  unfold cleanup at h
  cases h1 : cl_species (List.range st.num_species_orig) st with
  | none => rw [h1] at h; cases h
  | some st1 =>
    rw [h1] at h
    have s1 := cl_species_spec _ _ _ h1
    have hk := cl_chars_keep _ _ _ h c (by
      rcases hc with hc | hc
      · refine Or.inr (Or.inl ?_)
        rw [s1.1, s1.2.2.2.2.2.1]
        exact hc
      · refine Or.inr (Or.inr ?_)
        rw [s1.2.1]
        exact hc)
    rw [s1.2.1] at hk
    rw [s1.2.2.1] at hk
    exact hk

theorem cleanup_char_zero (st T : state_s) (h : cleanup st = some T) (c : Nat)
    (hcm : c < st.num_characters_orig)
    (hiso : isolatedV st.red_black (st.num_species_orig + c)) :
    T.characters.getD c 0 = 0 := by
  unfold cleanup at h
  cases h1 : cl_species (List.range st.num_species_orig) st with
  | none => rw [h1] at h; cases h
  | some st1 =>
    rw [h1] at h
    have s1 := cl_species_spec _ _ _ h1
    refine cl_chars_zero _ _ _ h c ?_ ?_
    · rw [s1.2.2.2.2.2.2.1]
      exact List.mem_range.mpr hcm
    · rw [s1.1, s1.2.2.2.2.2.1]
      exact hiso

theorem cleanup_char_neg (st T : state_s) (h : cleanup st = some T) (c : Nat)
    (hcm : c < st.num_characters_orig)
    (hiso : isolatedV st.red_black (st.num_species_orig + c))
    (hact : st.characters.getD c 0 ≠ 0)
    (hlen : c < st.current_states.length) :
    T.current_states.getD c 0 = -1 := by
  unfold cleanup at h
  cases h1 : cl_species (List.range st.num_species_orig) st with
  | none => rw [h1] at h; cases h
  | some st1 =>
    rw [h1] at h
    have s1 := cl_species_spec _ _ _ h1
    refine cl_chars_neg _ _ _ h c ?_ ?_ ?_ ?_
    · rw [s1.2.2.2.2.2.2.1]
      exact List.mem_range.mpr hcm
    · rw [s1.1, s1.2.2.2.2.2.1]
      exact hiso
    · rw [s1.2.1]
      exact hact
    · rw [s1.2.2.1]
      exact hlen

theorem cleanup_species_keep (st T : state_s) (h : cleanup st = some T) (s : Nat)
    (hs : ¬ isolatedV st.red_black s) :
    T.species.getD s 0 = st.species.getD s 0 := by
  unfold cleanup at h
  cases h1 : cl_species (List.range st.num_species_orig) st with
  | none => rw [h1] at h; cases h
  | some st1 =>
    rw [h1] at h
    have c1 := cl_chars_spec _ _ _ h
    rw [c1.2.1]
    exact cl_species_keep _ _ _ h1 s (Or.inr hs)

theorem cleanup_species_zero (st T : state_s) (h : cleanup st = some T) (s : Nat)
    (hsm : s < st.num_species_orig) (hiso : isolatedV st.red_black s) :
    T.species.getD s 0 = 0 := by
  unfold cleanup at h
  cases h1 : cl_species (List.range st.num_species_orig) st with
  | none => rw [h1] at h; cases h
  | some st1 =>
    rw [h1] at h
    have c1 := cl_chars_spec _ _ _ h
    rw [c1.2.1]
    exact cl_species_zero _ _ _ h1 s (List.mem_range.mpr hsm) hiso

theorem cleanup_m_keep (st T : state_s) (h : cleanup st = some T)
    (hno : ∀ c, c < st.num_characters_orig → st.characters.getD c 0 ≠ 0 →
      ¬ isolatedV st.red_black (st.num_species_orig + c)) :
    T.num_characters = st.num_characters := by
  unfold cleanup at h
  cases h1 : cl_species (List.range st.num_species_orig) st with
  | none => rw [h1] at h; cases h
  | some st1 =>
    rw [h1] at h
    have s1 := cl_species_spec _ _ _ h1
    have hid : cl_chars (List.range st1.num_characters_orig) st1 = some st1 := by
      refine cl_chars_id _ _ ?_
      intro c hcm hcon
      have hcm2 : c < st.num_characters_orig := by
        rw [← s1.2.2.2.2.2.2.1]
        exact List.mem_range.mp hcm
      refine hno c hcm2 ?_ ?_
      · rw [← s1.2.1]
        exact hcon.1
      · rw [← s1.1, ← s1.2.2.2.2.2.1]
        exact hcon.2
    have h2 : cl_chars (List.range st1.num_characters_orig) st1 = some T := h
    rw [hid] at h2
    cases h2
    exact s1.2.2.2.1

theorem cleanup_idem (st T : state_s) (h : cleanup st = some T) :
    cleanup T = some T := by
  have hcs := cleanup_spec st T h
  have hids : cl_species (List.range T.num_species_orig) T = some T := by
    refine cl_species_id _ _ ?_
    intro s hs hcon
    have hsm : s < st.num_species_orig := by
      rw [← hcs.2.2.1]
      exact List.mem_range.mp hs
    have hiso : isolatedV st.red_black s := by
      rw [← hcs.1]
      exact hcon.2
    have := cleanup_species_zero st T h s hsm hiso
    exact hcon.1 this
  have hidc : cl_chars (List.range T.num_characters_orig) T = some T := by
    refine cl_chars_id _ _ ?_
    intro c hcm hcon
    have hcm2 : c < st.num_characters_orig := by
      rw [← hcs.2.2.2.1]
      exact List.mem_range.mp hcm
    have hiso : isolatedV st.red_black (st.num_species_orig + c) := by
      rw [← hcs.1, ← hcs.2.2.1]
      exact hcon.2
    have := cleanup_char_zero st T h c hcm2 hiso
    exact hcon.1 this
  unfold cleanup
  rw [hids]
  exact hidc

theorem inv2_to_active (st : state_s) (hw : wf st) (hi : inv2 st) :
    activeImpliesCur st := by
  intro c hact
  have hlen : c < st.characters.length := getD_pos_lt st.characters c hact
  have hcm : c < st.num_characters_orig := by
    rw [← hw.2.1]
    exact hlen
  intro hcur
  exact hact (((hi c hcm).1).mp hcur)

theorem cleanup_inv2 (st T : state_s) (hw : wf st)
    (h : cleanup st = some T) (hi : inv2 st) : inv2 T := by
  have hcs := cleanup_spec st T h
  intro c hcm
  rw [hcs.2.2.2.1] at hcm
  rw [hcs.2.1]
  by_cases hdel : st.characters.getD c 0 ≠ 0 ∧
      isolatedV st.red_black (st.num_species_orig + c)
  · have hz := cleanup_char_zero st T h c hcm hdel.2
    have hn := cleanup_char_neg st T h c hcm hdel.2 hdel.1 (by
      rw [hw.2.2.1]
      exact hcm)
    rw [hz, hn]
    exact ⟨by simp, fun _ => rfl⟩
  · have hk : T.characters.getD c 0 = st.characters.getD c 0 ∧
        T.current_states.getD c 0 = st.current_states.getD c 0 := by
      refine cleanup_char_keep st T h c ?_
      by_cases hact : st.characters.getD c 0 = 0
      · exact Or.inr hact
      · refine Or.inl ?_
        intro hiso
        exact hdel ⟨hact, hiso⟩
    rw [hk.1, hk.2]
    exact hi c hcm

theorem cleanup_wf (st T : state_s) (hw : wf st) (h : cleanup st = some T) :
    wf T := by
  have hcs := cleanup_spec st T h
  refine ⟨?_, ?_, ?_, ?_⟩
  · rw [hcs.2.2.2.2.2.2.2.2.2.2.1, hcs.2.2.1]
    exact hw.1
  · rw [hcs.2.2.2.2.2.2.2.2.2.2.2.1, hcs.2.2.2.1]
    exact hw.2.1
  · rw [hcs.2.2.2.2.2.2.2.2.2.2.2.2, hcs.2.2.2.1]
    exact hw.2.2.1
  · rw [hcs.2.1, hcs.2.2.2.1]
    exact hw.2.2.2

/-! Branch characterizations of realize_character. -/

theorem accept_finish_eq (dst d2 : state_s) (h0 : check_state dst = 0)
    (hwlen : dst.num_characters_orig ≤ dst.current_states.length)
    (hcl : cleanup dst = some d2) :
    accept_finish dst = some (d2, true) := by
  unfold accept_finish
  rw [if_pos h0]
  simp only [hcl]
  rw [if_pos (cleanup_check dst d2 hwlen hcl h0)]

theorem realize_red_reject (S : state_s) (h0 : check_state S = 0)
    (hc : S.colors.getD S.realize 0 = RED) (hD : speciesD S ≠ ∅) :
    realize_character S =
      some ({ S with
              operation := 0
              tried_characters := []
              character_queue := []
              red_black := deleteIncident S.red_black
                (S.num_species_orig + S.realize) }, false) := by
  unfold realize_character copy_state
  rw [if_pos h0]
  simp only [hc, show (RED = BLACK) = False from eq_false (by decide),
    show (BLACK = BLACK) = True from eq_true rfl,
    show (RED = RED) = True from eq_true rfl, if_true, if_false]
  rw [if_neg hD]

theorem realize_black_eq (S : state_s) (h0 : check_state S = 0)
    (hc : S.colors.getD S.realize 0 = BLACK) :
    realize_character S = accept_finish { S with
      tried_characters := []
      character_queue := []
      red_black := deleteIncident S.red_black (S.num_species_orig + S.realize) ∪
        (speciesD S).image (fun x => edgeN (S.num_species_orig + S.realize) x)
      operation := 1
      colors := S.colors.set S.realize RED
      current_states := S.current_states.set S.realize 1 } := by
  unfold realize_character copy_state
  rw [if_pos h0]
  simp only [hc, show (BLACK = BLACK) = True from eq_true rfl, if_true]

theorem realize_red_remove_eq (S : state_s) (h0 : check_state S = 0)
    (hc : S.colors.getD S.realize 0 = RED) (hD : speciesD S = ∅)
    (hcm : S.realize < S.num_characters_orig)
    (hact : 0 < S.characters.getD S.realize 0)
    (hcur : S.current_states.getD S.realize 0 ≠ -1) :
    realize_character S = accept_finish { S with
      tried_characters := []
      character_queue := []
      red_black := deleteIncident S.red_black (S.num_species_orig + S.realize)
      operation := 2
      colors := S.colors.set S.realize (RED + 1)
      characters := S.characters.set S.realize 0
      current_states := S.current_states.set S.realize (-1)
      num_characters := S.num_characters - 1 } := by
  unfold realize_character copy_state
  rw [if_pos h0]
  simp only [hc, show (RED = BLACK) = False from eq_false (by decide),
    show (BLACK = BLACK) = True from eq_true rfl,
    show (RED = RED) = True from eq_true rfl, if_true, if_false]
  rw [if_pos hD]
  unfold delete_character
  rw [if_pos (⟨hcm, hact, hcur⟩ :
    S.realize < S.num_characters_orig ∧
    0 < S.characters.getD S.realize 0 ∧
    S.current_states.getD S.realize 0 ≠ -1)]

theorem realize_removed_char_asserts (S : state_s) (h0 : check_state S = 0)
    (hc : S.colors.getD S.realize 0 = RED) (hD : speciesD S = ∅)
    (hinact : S.characters.getD S.realize 0 = 0) :
    realize_character S = none := by
  unfold realize_character copy_state
  rw [if_pos h0]
  simp only [hc, show (RED = BLACK) = False from eq_false (by decide),
    show (BLACK = BLACK) = True from eq_true rfl,
    show (RED = RED) = True from eq_true rfl, if_true, if_false]
  rw [if_pos hD]
  unfold delete_character
  rw [if_neg (by
    intro hcon
    rw [hinact] at hcon
    exact absurd hcon.2.1 (by omega))]

/-! Claim theorems. -/

/-- C1 (amended): for every valid state (check_state 0) whose target character
is RED and whose set of component species not adjacent to the character's
vertex is nonempty, realize_character rejects: it sets operation = 0 and
returns false, and the child equals the source on every field except that
operation is 0, the per-level tried/queue lists are reset by copy_state, and
every edge incident on the character's vertex has already been deleted from
the red-black graph.  (The claim's D must be restricted to species, and the
rejected child does not keep the red-black edge set intact.) -/
theorem c1_red_rejection (S : state_s) (h0 : check_state S = 0)
    (hc : S.colors.getD S.realize 0 = RED) (hD : speciesD S ≠ ∅) :
    realize_character S =
      some ({ S with
              operation := 0
              tried_characters := []
              character_queue := []
              red_black := deleteIncident S.red_black
                (S.num_species_orig + S.realize) }, false) :=
  realize_red_reject S h0 hc hD

/-- C1 witness: the rejection theorem evaluated on the concrete state stB. -/
theorem c1_red_rejection_witness :
    check_state stB = 0 ∧ stB.colors.getD stB.realize 0 = RED ∧
    speciesD stB ≠ ∅ ∧
    realize_character stB =
      some ({ stB with
              operation := 0
              tried_characters := []
              character_queue := []
              red_black := deleteIncident stB.red_black
                (stB.num_species_orig + stB.realize) }, false) :=
  ⟨by decide, by decide, by decide,
    c1_red_rejection stB (by decide) (by decide) (by decide)⟩

/-- C1 counterexample: on stA the claim's set D (component minus neighbors
minus the vertex, with no species restriction) is nonempty yet the operator
accepts, because the only non-neighbor is another character vertex; on stB the
operator does reject, but the returned state's red-black graph has lost the
edges incident on the character's vertex, so it does not equal the source on
the edge set. -/
theorem c1_counterexample :
    (stA.colors.getD stA.realize 0 = RED ∧ claimD stA ≠ ∅ ∧
      Option.map (fun p => p.2) (realize_character stA) = some true) ∧
    (stB.colors.getD stB.realize 0 = RED ∧ claimD stB ≠ ∅ ∧
      Option.map (fun p => (p.2, decide (p.1.red_black = stB.red_black)))
        (realize_character stB) = some (false, false)) := by
  decide

/-- C8: cleanup is idempotent (a second cleanup of a cleaned state is the
identity), and replay mode with an empty character list runs exactly one
cleanup on its input state. -/
theorem c8_cleanup_idempotent :
    (∀ S T : state_s, cleanup S = some T → cleanup T = some T) ∧
    (∀ S : state_s, replay_exec S [] = cleanup S) :=
  ⟨fun S T h => cleanup_idem S T h, fun _ => rfl⟩

/-- C8 witness: cleanup of the loaded 1 x 1 instance is the identity and a
second cleanup returns the same state. -/
theorem c8_witness :
    cleanup init11 = some init11 ∧ replay_exec init11 [] = cleanup init11 :=
  ⟨c8_cleanup_idempotent.1 init11 init11 (by decide),
    c8_cleanup_idempotent.2 init11⟩

/-- C9: whatever the snapshot document contains, the state produced by
read_state has empty tried_characters and character_queue, because both are
read through json_get_list in optional mode, which returns NULL. -/
theorem c9_read_state_lists (doc : snapshot_doc) (st : state_s)
    (h : read_state doc = some st) :
    st.tried_characters = [] ∧ st.character_queue = [] := by
  unfold read_state at h
  simp only [json_get_list, eq_self_iff_true, if_true] at h
  split_ifs at h with hc
  · cases h
    exact ⟨rfl, rfl⟩

/-- C9 witness: a document with nonempty tried/queue arrays loads into a state
with empty lists. -/
theorem c9_witness :
    docW.tried_characters = some [3, 4] ∧ docW.character_queue = some [7] ∧
    ∀ st : state_s, read_state docW = some st →
      st.tried_characters = [] ∧ st.character_queue = [] :=
  ⟨rfl, rfl, fun st h => c9_read_state_lists docW st h⟩

/-- C10: delete_species asserts that the species is active, delete_character
asserts that the character is active and its current state is not -1, each
index can be deleted at most once, and asking for the removal realization
(operation 2 path: RED color, empty D) of an already-removed character fails
delete_character's assertion instead of being rejected. -/
theorem c10_delete_asserts :
    (∀ (S : state_s) (s : Nat), S.species.getD s 0 = 0 →
      delete_species S s = none) ∧
    (∀ (S : state_s) (c : Nat), S.characters.getD c 0 = 0 ∨
      S.current_states.getD c 0 = -1 → delete_character S c = none) ∧
    (∀ (S T : state_s) (s : Nat), delete_species S s = some T →
      delete_species T s = none) ∧
    (∀ (S T : state_s) (c : Nat), delete_character S c = some T →
      delete_character T c = none) ∧
    (∀ S : state_s, check_state S = 0 → S.colors.getD S.realize 0 = RED →
      S.characters.getD S.realize 0 = 0 → speciesD S = ∅ →
      realize_character S = none) := by
  refine ⟨?_, ?_, ?_, ?_, ?_⟩
  · intro S s h
    unfold delete_species
    rw [if_neg]
    intro hcon
    rw [h] at hcon
    exact absurd hcon.2 (by omega)
  · intro S c h
    unfold delete_character
    rw [if_neg]
    intro hcon
    rcases h with h | h
    · rw [h] at hcon
      exact absurd hcon.2.1 (by omega)
    · exact hcon.2.2 h
  · intro S T s h
    obtain ⟨he, hlt, hpos⟩ := delete_species_eq S T s h
    have hz : T.species.getD s 0 = 0 := by
      subst he
      show (S.species.set s 0).getD s 0 = 0
      by_cases hlen : s < S.species.length
      · exact getD_set_self S.species s 0 0 hlen
      · rw [set_oob S.species s 0 (by omega), List.getD_eq_getElem?_getD,
          List.getElem?_eq_none (by omega)]
        rfl
    unfold delete_species
    rw [if_neg]
    intro hcon
    rw [hz] at hcon
    exact absurd hcon.2 (by omega)
  · intro S T c h
    obtain ⟨he, hlt, hpos, hcur⟩ := delete_character_eq S T c h
    have hz : T.characters.getD c 0 = 0 := by
      subst he
      show (S.characters.set c 0).getD c 0 = 0
      by_cases hlen : c < S.characters.length
      · exact getD_set_self S.characters c 0 0 hlen
      · rw [set_oob S.characters c 0 (by omega), List.getD_eq_getElem?_getD,
          List.getElem?_eq_none (by omega)]
        rfl
    unfold delete_character
    rw [if_neg]
    intro hcon
    rw [hz] at hcon
    exact absurd hcon.2.1 (by omega)
  · intro S h0 hc hz hD
    exact realize_removed_char_asserts S h0 hc hD hz

/-- C10 witness: realizing the already-removed RED character of sRem is an
assertion failure. -/
theorem c10_witness :
    check_state sRem = 0 ∧ sRem.colors.getD sRem.realize 0 = RED ∧
    sRem.characters.getD sRem.realize 0 = 0 ∧ speciesD sRem = ∅ ∧
    realize_character sRem = none :=
  ⟨by decide, by decide, by decide, by decide,
    c10_delete_asserts.2.2.2.2 sRem (by decide) (by decide) (by decide) (by decide)⟩

theorem edgeN_of_le (u v : Nat) (h : u ≤ v) : edgeN u v = (u, v) := if_pos h

/-- C6 (amended): dumping a valid state and loading it back preserves
num_species_orig, num_characters_orig, num_species, num_characters, realize,
current_states, species_active, char_active and both edge sets, but resets
colors to all-BLACK, operation to 0, the two lists to empty and leaves the
matrix unallocated, because write_state serializes neither colors nor
operation, and read_state reads the lists in optional mode and never reads the
matrix. -/
theorem c6_roundtrip (S : state_s) (h0 : check_state S = 0) :
    Option.bind (write_state S) read_state =
      some { S with
             colors := List.replicate S.num_characters_orig BLACK
             operation := 0
             matrix := none
             tried_characters := []
             character_queue := [] } := by
  unfold write_state
  rw [if_pos h0]
  show read_state _ = _
  unfold read_state
  simp only [json_get_list, eq_self_iff_true, if_true]
  split_ifs with hc
  · rfl
  · exact absurd h0 hc

/-- C6 witness: the round trip evaluated on the concrete RED-colored state. -/
theorem c6_roundtrip_witness :
    check_state stC6 = 0 ∧
    Option.bind (write_state stC6) read_state =
      some { stC6 with
             colors := List.replicate stC6.num_characters_orig BLACK
             operation := 0
             matrix := none
             tried_characters := []
             character_queue := [] } :=
  ⟨by decide, c6_roundtrip stC6 (by decide)⟩

/-- C6 counterexample: the concrete state stC6 has colors [RED], but the
reloaded state has colors [BLACK]: the codec does not round-trip the colors
array (it is never serialized). -/
theorem c6_counterexample :
    stC6.colors = [RED] ∧
    Option.map (fun t => t.colors) (Option.bind (write_state stC6) read_state) =
      some [BLACK] ∧ RED ≠ BLACK := by
  decide

theorem stateFlag_le (st : state_s) (c1 c2 x y : Nat) :
    stateFlag st c1 c2 x y ≤ 1 := by
  unfold stateFlag
  split_ifs <;> omega

theorem stateFlag_eq_one (st : state_s) (c1 c2 x y : Nat) :
    stateFlag st c1 c2 x y = 1 ↔
      ∃ s, s < st.num_species ∧ matrix_get_value st s c1 = x ∧
        matrix_get_value st s c2 = y := by
  unfold stateFlag
  split_ifs with hx
  · simp only [eq_self_iff_true, true_iff]
    obtain ⟨s, hs, hv⟩ := hx
    exact ⟨s, Finset.mem_range.mp hs, hv⟩
  · constructor
    · intro h
      simp at h
    · intro ⟨s, hs, hv⟩
      exact absurd ⟨s, Finset.mem_range.mpr hs, hv⟩ hx

theorem conflictCond_iff (st : state_s) (c1 c2 : Nat) :
    conflictCond st c1 c2 ↔
      (∃ s, s < st.num_species ∧ matrix_get_value st s c1 = 0 ∧
        matrix_get_value st s c2 = 0) ∧
      (∃ s, s < st.num_species ∧ matrix_get_value st s c1 = 0 ∧
        matrix_get_value st s c2 = 1) ∧
      (∃ s, s < st.num_species ∧ matrix_get_value st s c1 = 1 ∧
        matrix_get_value st s c2 = 0) ∧
      (∃ s, s < st.num_species ∧ matrix_get_value st s c1 = 1 ∧
        matrix_get_value st s c2 = 1) := by
  unfold conflictCond
  have h00 := stateFlag_le st c1 c2 0 0
  have h01 := stateFlag_le st c1 c2 0 1
  have h10 := stateFlag_le st c1 c2 1 0
  have h11 := stateFlag_le st c1 c2 1 1
  rw [← stateFlag_eq_one st c1 c2 0 0, ← stateFlag_eq_one st c1 c2 0 1,
    ← stateFlag_eq_one st c1 c2 1 0, ← stateFlag_eq_one st c1 c2 1 1]
  omega

theorem read_instance_red_black (n m : Nat) (cells : List Nat) :
    (read_instance n m cells).red_black =
      (((Finset.range n) ×ˢ (Finset.range m)).filter
        (fun p => matrix_get_value
          { init_state n m with matrix := some cells } p.1 p.2 = 1)).image
        (fun p => edgeN p.1 (p.2 + n)) := rfl

theorem read_instance_conflict (n m : Nat) (cells : List Nat) :
    (read_instance n m cells).conflict =
      (((Finset.range m) ×ˢ (Finset.range m)).filter
        (fun p => p.1 < p.2 ∧ conflictCond
          { init_state n m with matrix := some cells } p.1 p.2)).image
        (fun p => edgeN p.1 p.2) := rfl

/-- C5 (amended): the loader builds RB with an edge between species s and
character vertex n + c exactly when the matrix cell is 1 (and no other
edges), and CG with an edge (c1, c2) exactly when all four column-pair value
combinations occur among the species; however, on the input 3 3 / 1 1 0 /
1 0 1 / 0 1 1 the conflict graph is empty, not the triangle, because no pair
of columns exhibits the combination (0,0) on only three species. -/
theorem c5_loader (n m : Nat) (cells : List Nat) :
    ((∀ s c : Nat, s < n → c < m →
      (edgeN s (c + n) ∈ (read_instance n m cells).red_black ↔
        cells.getD (c + m * s) 0 = 1)) ∧
    (∀ e ∈ (read_instance n m cells).red_black, ∃ s c : Nat, s < n ∧ c < m ∧
      e = edgeN s (c + n) ∧ cells.getD (c + m * s) 0 = 1) ∧
    (∀ c1 c2 : Nat, c1 < c2 →
      (edgeN c1 c2 ∈ (read_instance n m cells).conflict ↔
        (c2 < m ∧
          (∃ s, s < n ∧ cells.getD (c1 + m * s) 0 = 0 ∧
            cells.getD (c2 + m * s) 0 = 0) ∧
          (∃ s, s < n ∧ cells.getD (c1 + m * s) 0 = 0 ∧
            cells.getD (c2 + m * s) 0 = 1) ∧
          (∃ s, s < n ∧ cells.getD (c1 + m * s) 0 = 1 ∧
            cells.getD (c2 + m * s) 0 = 0) ∧
          (∃ s, s < n ∧ cells.getD (c1 + m * s) 0 = 1 ∧
            cells.getD (c2 + m * s) 0 = 1)))) ∧
    triangle.conflict = ∅) := by
  refine ⟨?_, ?_, ?_, by decide⟩
  · intro s c hs hc
    constructor
    · intro hmem
      rw [read_instance_red_black, Finset.mem_image] at hmem
      obtain ⟨p, hp, hpe⟩ := hmem
      rw [Finset.mem_filter, Finset.mem_product, Finset.mem_range,
        Finset.mem_range] at hp
      have he1 : edgeN p.1 (p.2 + n) = (p.1, p.2 + n) :=
        edgeN_of_le p.1 (p.2 + n) (by omega)
      have he2 : edgeN s (c + n) = (s, c + n) :=
        edgeN_of_le s (c + n) (by omega)
      rw [he1, he2] at hpe
      have hps : p.1 = s := congrArg Prod.fst hpe
      have hpc : p.2 = c := by
        have := congrArg Prod.snd hpe
        simp only [] at this
        omega
      have hval := hp.2
      rw [hps, hpc] at hval
      exact hval
    · intro hval
      rw [read_instance_red_black, Finset.mem_image]
      refine ⟨(s, c), ?_, rfl⟩
      rw [Finset.mem_filter, Finset.mem_product, Finset.mem_range,
        Finset.mem_range]
      exact ⟨⟨hs, hc⟩, hval⟩
  · intro e hmem
    rw [read_instance_red_black, Finset.mem_image] at hmem
    obtain ⟨p, hp, hpe⟩ := hmem
    rw [Finset.mem_filter, Finset.mem_product, Finset.mem_range,
      Finset.mem_range] at hp
    exact ⟨p.1, p.2, hp.1.1, hp.1.2, hpe.symm, hp.2⟩
  · intro c1 c2 hlt
    constructor
    · intro hmem
      rw [read_instance_conflict, Finset.mem_image] at hmem
      obtain ⟨p, hp, hpe⟩ := hmem
      rw [Finset.mem_filter, Finset.mem_product, Finset.mem_range,
        Finset.mem_range] at hp
      have he1 : edgeN p.1 p.2 = (p.1, p.2) :=
        edgeN_of_le p.1 p.2 (by omega)
      have he2 : edgeN c1 c2 = (c1, c2) := edgeN_of_le c1 c2 (by omega)
      rw [he1, he2] at hpe
      have hps : p.1 = c1 := congrArg Prod.fst hpe
      have hpc : p.2 = c2 := congrArg Prod.snd hpe
      have hcond := hp.2.2
      rw [hps, hpc] at hcond
      rw [conflictCond_iff] at hcond
      exact ⟨by rw [← hpc]; exact hp.1.2, hcond⟩
    · intro ⟨hc2, hcond⟩
      rw [read_instance_conflict, Finset.mem_image]
      refine ⟨(c1, c2), ?_, rfl⟩
      rw [Finset.mem_filter, Finset.mem_product, Finset.mem_range,
        Finset.mem_range]
      refine ⟨⟨by omega, hc2⟩, hlt, ?_⟩
      rw [conflictCond_iff]
      exact hcond

/-- C5 witness: the loader characterization applied to the triangle input at
species 0 and character 0, plus the empty conflict graph. -/
theorem c5_witness :
    (edgeN 0 (0 + 3) ∈ (read_instance 3 3 [1, 1, 0, 1, 0, 1, 0, 1, 1]).red_black ↔
      ([1, 1, 0, 1, 0, 1, 0, 1, 1] : List Nat).getD (0 + 3 * 0) 0 = 1) ∧
    triangle.conflict = ∅ :=
  ⟨(c5_loader 3 3 [1, 1, 0, 1, 0, 1, 0, 1, 1]).1 0 0 (by decide) (by decide),
   (c5_loader 3 3 [1, 1, 0, 1, 0, 1, 0, 1, 1]).2.2.2⟩

/-- C5 counterexample: the conflict graph of the 3 x 3 triangle input is
empty, not the three-edge triangle the claim expects: no species row realizes
the pair (0, 0) on any column pair. -/
theorem c5_counterexample :
    triangle.conflict = ∅ ∧
    triangle.conflict ≠ ({(0, 1), (0, 2), (1, 2)} : Finset (Nat × Nat)) := by
  decide

theorem search_loop_const (ni : state_s → List Nat) (fuel : Nat) :
    ∀ (states : Nat → state_s) (level : Int) (out : List (Nat × Nat)),
    search_loop ni fuel states level = some (SearchOutcome.success out) →
    out = (List.range out.length).map (fun i => (i, (out.headD (0, 0)).2)) := by
  induction fuel with
  | zero =>
    intro states level out h
    simp only [search_loop] at h
    exact Option.noConfusion h
  | succ fuel ih =>
    intro states level out h
    simp only [search_loop] at h
    split_ifs at h with hneg
    · simp at h
    · split at h
      · exact Option.noConfusion h
      · rename_i cleaned hcl
        split_ifs at h with hz
        · have hout : out = (List.range (level.toNat + 1)).map
              (fun i => (i, cleaned.realize)) := by
            have h1 := Option.some_injective _ h
            cases h1
            rfl
          subst hout
          have hlen : ((List.range (level.toNat + 1)).map
              (fun i => (i, cleaned.realize))).length = level.toNat + 1 := by
            simp
          have hhead : ((List.range (level.toNat + 1)).map
              (fun i => (i, cleaned.realize))).headD (0, 0) = (0, cleaned.realize) := by
            rw [List.range_succ_eq_map]
            rfl
          rw [hlen, hhead]
        · split at h
          · exact Option.noConfusion h
          · rename_i states2 level2 hnx
            exact ih states2 level2 out h

/-- C7 (amended): whenever the driver's loop lands on a slot with no species
left and reports success, the emitted sequence consists of the line numbers 0
to L each paired with one and the same character value (the landed slot's
realized character), not the per-level moves: the printf loop of
exhaustive_search reads realized_char from the landed slot only. -/
theorem c7_success_output (ni : state_s → List Nat) (fuel : Nat)
    (states : Nat → state_s) (out : List (Nat × Nat))
    (h : exhaustive_search ni fuel states = some (SearchOutcome.success out)) :
    out = (List.range out.length).map (fun i => (i, (out.headD (0, 0)).2)) := by
  unfold exhaustive_search at h
  cases hn : next_node states 0 ni with
  | none => rw [hn] at h; cases h
  | some p =>
    rw [hn] at h
    exact search_loop_const ni fuel p.1 p.2 out h

/-- C7 witness: the success run on the S1 instance with the natural-order
strategy emits [(0,1), (1,1), (2,1)], which has the constant shape the
theorem asserts. -/
theorem c7_witness :
    exhaustive_search natOrder 6 s1states =
      some (SearchOutcome.success [(0, 1), (1, 1), (2, 1)]) ∧
    ([(0, 1), (1, 1), (2, 1)] : List (Nat × Nat)) =
      (List.range ([(0, 1), (1, 1), (2, 1)] : List (Nat × Nat)).length).map
        (fun i => (i, (([(0, 1), (1, 1), (2, 1)] : List (Nat × Nat)).headD (0, 0)).2)) :=
  ⟨by decide, c7_success_output natOrder 6 s1states _ (by decide)⟩

/-- C7 counterexample: on the S1 run, the state at level 1 was produced by
realizing character 0 (the slot written by the first next_node call has
realize = 0), yet the emitted sequence is [(0,1), (1,1), (2,1)]: its element
at position 1 pairs line 1 with character 1, not with the move 0 that produced
the level-1 state. -/
theorem c7_counterexample :
    Option.map (fun p => ((p.1 1).realize, p.2)) (next_node s1states 0 natOrder) =
      some (0, 1) ∧
    exhaustive_search natOrder 6 s1states =
      some (SearchOutcome.success [(0, 1), (1, 1), (2, 1)]) ∧
    ((1, 1) : Nat × Nat) ≠ (1, 0) := by
  decide

theorem countCur_set_inc (a : List Int) (n i : Nat) (v : Int) (hi : i < n)
    (h : a.getD i 0 = -1) (hv : v ≠ -1) :
    countCur (a.set i v) n = countCur a n + 1 := by
  have hlen : i < a.length := getD_neg_lt a i h
  unfold countCur
  have hnot : i ∉ (Finset.range n).filter (fun j => a.getD j 0 ≠ -1) := by
    rw [Finset.mem_filter]
    intro hcon
    exact hcon.2 h
  have hset : (Finset.range n).filter (fun j => (a.set i v).getD j 0 ≠ -1) =
      insert i ((Finset.range n).filter (fun j => a.getD j 0 ≠ -1)) := by
    ext j
    rw [Finset.mem_insert, Finset.mem_filter, Finset.mem_filter]
    by_cases hji : j = i
    · subst hji
      rw [getD_set_self a j v 0 hlen]
      simp [hv, hi]
    · rw [getD_set_ne a i j v 0 (fun hc => hji hc.symm)]
      simp [hji]
  rw [hset, Finset.card_insert_of_not_mem hnot]

theorem isolated_deleteIncident (g : Finset (Nat × Nat)) (v : Nat) :
    isolatedV (deleteIncident g v) v := by
  intro e he
  rw [deleteIncident, Finset.mem_filter] at he
  exact he.2

theorem isolated_black_iff (g : Finset (Nat × Nat)) (v : Nat) (D : Finset Nat) :
    isolatedV (deleteIncident g v ∪ D.image (fun x => edgeN v x)) v ↔ D = ∅ := by
  constructor
  · intro hiso
    by_contra hne
    obtain ⟨d, hd⟩ := Finset.nonempty_iff_ne_empty.mpr hne
    have hmem : edgeN v d ∈ deleteIncident g v ∪ D.image (fun x => edgeN v x) :=
      Finset.mem_union_right _ (Finset.mem_image_of_mem _ hd)
    have hcon := hiso _ hmem
    unfold edgeN at hcon
    split_ifs at hcon with hle
    · exact hcon.1 rfl
    · exact hcon.2 rfl
  · intro hD
    rw [hD]
    simp only [Finset.image_empty, Finset.union_empty]
    exact isolated_deleteIncident g v

theorem speciesD_empty_of_claimD (S : state_s) (h : claimD S = ∅) :
    speciesD S = ∅ := by
  rw [Finset.eq_empty_iff_forall_not_mem] at h ⊢
  intro x hx
  unfold speciesD at hx
  rw [Finset.mem_filter] at hx
  refine h x ?_
  unfold claimD
  rw [Finset.mem_sdiff, Finset.mem_singleton]
  exact ⟨hx.1, hx.2.2⟩

theorem realize_check (S : state_s) (p : state_s × Bool)
    (h : realize_character S = some p) : check_state S = 0 := by
  by_contra hc
  unfold realize_character copy_state at h
  rw [if_neg hc] at h
  exact Option.noConfusion h

theorem accept_finish_some (dst : state_s) (p : state_s × Bool)
    (h : accept_finish dst = some p) :
    check_state dst = 0 ∧ cleanup dst = some p.1 ∧ p.2 = true := by
  unfold accept_finish at h
  split_ifs at h with h1
  · split at h
    · exact Option.noConfusion h
    · rename_i d2 hcl
      split_ifs at h with h2
      have h3 := Option.some_injective _ h
      cases h3
      exact ⟨h1, hcl, rfl⟩

theorem realize_other_eq (S : state_s) (h0 : check_state S = 0)
    (hc1 : S.colors.getD S.realize 0 ≠ BLACK)
    (hc2 : S.colors.getD S.realize 0 ≠ RED) :
    realize_character S = accept_finish { S with
      tried_characters := []
      character_queue := []
      red_black := deleteIncident S.red_black
        (S.num_species_orig + S.realize) } := by
  unfold realize_character copy_state
  rw [if_pos h0]
  simp only [if_neg hc1, if_neg hc2]

theorem getD_replicate_lt {α : Type} (n i : Nat) (a d : α) (h : i < n) :
    (List.replicate n a).getD i d = a := by
  rw [List.getD_eq_getElem?_getD, List.getElem?_replicate]
  simp [h]

/-- C3 (amended): for every valid state (check_state 0, well-formed arrays,
active characters with live current states) whose active target character is
BLACK, realization accepts: in the child all edges incident on the character's
vertex are deleted and an edge to every species of D is added (no other edge
changes), colors[c] becomes RED and operation becomes 1; current_state[c]
becomes 1 when D contains a species, but when D contains no species the
immediately following cleanup removes the now isolated character again and
current_state[c] is -1 in the returned child. -/
theorem c3_black_realization (S : state_s) (h0 : check_state S = 0) (hw : wf S)
    (hai : activeImpliesCur S) (hcm : S.realize < S.num_characters_orig)
    (hact : S.characters.getD S.realize 0 ≠ 0)
    (hc : S.colors.getD S.realize 0 = BLACK) :
    Option.map (fun p => p.2) (realize_character S) = some true ∧
    Option.map (fun p => p.1.red_black) (realize_character S) =
      some (deleteIncident S.red_black (S.num_species_orig + S.realize) ∪
        (speciesD S).image (fun x => edgeN (S.num_species_orig + S.realize) x)) ∧
    Option.map (fun p => p.1.colors) (realize_character S) =
      some (S.colors.set S.realize RED) ∧
    Option.map (fun p => p.1.operation) (realize_character S) = some 1 ∧
    Option.map (fun p => p.1.current_states.getD S.realize 0)
      (realize_character S) =
      some (if speciesD S = ∅ then -1 else 1) := by
  have hcur : S.current_states.getD S.realize 0 ≠ -1 := hai S.realize hact
  have hlenc : S.current_states.length = S.num_characters_orig := hw.2.2.1
  have heq := realize_black_eq S h0 hc
  rw [check_state_zero_iff] at h0
  have hch : check_state { S with
      tried_characters := []
      character_queue := []
      red_black := deleteIncident S.red_black (S.num_species_orig + S.realize) ∪
        (speciesD S).image (fun x => edgeN (S.num_species_orig + S.realize) x)
      operation := 1
      colors := S.colors.set S.realize RED
      current_states := S.current_states.set S.realize 1 } = 0 := by
    rw [check_state_zero_iff]
    refine ⟨h0.1, h0.2.1, h0.2.2.1, h0.2.2.2.1, ?_⟩
    show countCur (S.current_states.set S.realize 1) S.num_characters_orig =
      S.num_characters
    rw [countCur_set_keep S.current_states S.num_characters_orig S.realize 1
      (by omega) hcur]
    exact h0.2.2.2.2
  have haiB : activeImpliesCur { S with
      tried_characters := []
      character_queue := []
      red_black := deleteIncident S.red_black (S.num_species_orig + S.realize) ∪
        (speciesD S).image (fun x => edgeN (S.num_species_orig + S.realize) x)
      operation := 1
      colors := S.colors.set S.realize RED
      current_states := S.current_states.set S.realize 1 } := by
    intro c hc2
    show (S.current_states.set S.realize 1).getD c 0 ≠ -1
    by_cases hce : c = S.realize
    · subst hce
      rw [getD_set_self S.current_states S.realize 1 0 (by omega)]
      omega
    · rw [getD_set_ne S.current_states S.realize c 1 0 (fun hx => hce hx.symm)]
      exact hai c hc2
  obtain ⟨T, hT⟩ := Option.isSome_iff_exists.mp (cleanup_isSome _ haiB)
  have hacc := accept_finish_eq _ T hch (by
    show S.num_characters_orig ≤ (S.current_states.set S.realize 1).length
    rw [List.length_set]
    omega) hT
  rw [heq, hacc]
  have spc := cleanup_spec _ T hT
  refine ⟨rfl, ?_, ?_, ?_, ?_⟩
  · simp only [Option.map_some']
    rw [spc.1]
  · simp only [Option.map_some']
    rw [spc.2.1]
  · simp only [Option.map_some']
    rw [spc.2.2.2.2.2.1]
  · simp only [Option.map_some']
    by_cases hD : speciesD S = ∅
    · rw [if_pos hD]
      have hneg := cleanup_char_neg _ T hT S.realize
        (by show S.realize < S.num_characters_orig; omega)
        (by
          show isolatedV (deleteIncident S.red_black
            (S.num_species_orig + S.realize) ∪
            (speciesD S).image (fun x => edgeN (S.num_species_orig + S.realize) x))
            (S.num_species_orig + S.realize)
          exact (isolated_black_iff S.red_black (S.num_species_orig + S.realize)
            (speciesD S)).mpr hD)
        (by
          show S.characters.getD S.realize 0 ≠ 0
          exact hact)
        (by
          show S.realize < (S.current_states.set S.realize 1).length
          rw [List.length_set]
          omega)
      rw [hneg]
    · rw [if_neg hD]
      have hkeep := cleanup_char_keep _ T hT S.realize (Or.inl (by
        show ¬ isolatedV (deleteIncident S.red_black
          (S.num_species_orig + S.realize) ∪
          (speciesD S).image (fun x => edgeN (S.num_species_orig + S.realize) x))
          (S.num_species_orig + S.realize)
        intro hcon
        exact hD ((isolated_black_iff S.red_black
          (S.num_species_orig + S.realize) (speciesD S)).mp hcon)))
      rw [hkeep.2]
      show some ((S.current_states.set S.realize 1).getD S.realize 0) =
        some (1 : Int)
      rw [getD_set_self S.current_states S.realize 1 0 (by omega)]

/-- C3 witness: realizing the BLACK character 1 of the S6 instance, whose D
contains species 0. -/
theorem c3_witness :
    Option.map (fun p => p.2) (realize_character stC3w) = some true ∧
    Option.map (fun p => p.1.operation) (realize_character stC3w) = some 1 ∧
    Option.map (fun p => p.1.current_states.getD stC3w.realize 0)
      (realize_character stC3w) = some (if speciesD stC3w = ∅ then -1 else 1) :=
  ⟨(c3_black_realization stC3w (by decide) (by decide) (by decide) (by decide)
      (by decide) (by decide)).1,
   (c3_black_realization stC3w (by decide) (by decide) (by decide) (by decide)
      (by decide) (by decide)).2.2.2.1,
   (c3_black_realization stC3w (by decide) (by decide) (by decide) (by decide)
      (by decide) (by decide)).2.2.2.2⟩

/-- C3 counterexample: realizing the BLACK character of the 1 x 1 instance is
accepted with operation 1, but the returned child has current_state -1 for it,
not 1: its D contains no species, so cleanup removes the character right after
the realization. -/
theorem c3_counterexample :
    init11.colors.getD init11.realize 0 = BLACK ∧
    Option.map (fun p => (p.2, p.1.operation, p.1.current_states.getD 0 0))
      (realize_character init11) = some (true, 1, -1) ∧ (-1 : Int) ≠ 1 := by
  decide

/-- C4 (amended): for every valid state whose target character is RED, still
active (the spec's S6 scenario violates this: after the first realization,
cleanup has already removed character 0, so the second realization is an
assertion failure, not an accepted removal), with live current state, whose
vertex is adjacent to every other vertex of its component (D empty), and in
which no other active character is isolated once the vertex's edges are gone:
realization accepts with removal; no edges are re-added, colors[c] becomes
REMOVED, current_state[c] becomes -1, char_active[c] becomes 0, m decreases by
exactly 1, and operation becomes 2. -/
theorem c4_red_removal (S : state_s) (h0 : check_state S = 0) (hw : wf S)
    (hai : activeImpliesCur S) (hcm : S.realize < S.num_characters_orig)
    (hact : S.characters.getD S.realize 0 ≠ 0)
    (hc : S.colors.getD S.realize 0 = RED)
    (hD : claimD S = ∅)
    (hno : ∀ c, c < S.num_characters_orig → c ≠ S.realize →
      S.characters.getD c 0 ≠ 0 →
      ¬ isolatedV (deleteIncident S.red_black (S.num_species_orig + S.realize))
        (S.num_species_orig + c)) :
    0 < S.num_characters ∧
    Option.map (fun p => p.2) (realize_character S) = some true ∧
    Option.map (fun p => p.1.red_black) (realize_character S) =
      some (deleteIncident S.red_black (S.num_species_orig + S.realize)) ∧
    Option.map (fun p => p.1.colors.getD S.realize 0) (realize_character S) =
      some REMOVED ∧
    Option.map (fun p => p.1.current_states.getD S.realize 0)
      (realize_character S) = some (-1) ∧
    Option.map (fun p => p.1.characters.getD S.realize 0) (realize_character S) =
      some 0 ∧
    Option.map (fun p => p.1.num_characters) (realize_character S) =
      some (S.num_characters - 1) ∧
    Option.map (fun p => p.1.operation) (realize_character S) = some 2 := by
  have hcur : S.current_states.getD S.realize 0 ≠ -1 := hai S.realize hact
  have hlenc : S.current_states.length = S.num_characters_orig := hw.2.2.1
  have hlenk : S.characters.length = S.num_characters_orig := hw.2.1
  have hDs : speciesD S = ∅ := speciesD_empty_of_claimD S hD
  have heq := realize_red_remove_eq S h0 hc hDs hcm
    (Nat.pos_of_ne_zero hact) hcur
  rw [check_state_zero_iff] at h0
  have hmpos : 0 < S.num_characters := by
    have := countActive_pos S.characters S.num_characters_orig S.realize hcm hact
    omega
  have hch : check_state { S with
      tried_characters := []
      character_queue := []
      red_black := deleteIncident S.red_black (S.num_species_orig + S.realize)
      operation := 2
      colors := S.colors.set S.realize (RED + 1)
      characters := S.characters.set S.realize 0
      current_states := S.current_states.set S.realize (-1)
      num_characters := S.num_characters - 1 } = 0 := by
    rw [check_state_zero_iff]
    refine ⟨h0.1, by show S.num_characters - 1 ≤ S.num_characters_orig; omega,
      h0.2.2.1, ?_, ?_⟩
    · show countActive (S.characters.set S.realize 0) S.num_characters_orig =
        S.num_characters - 1
      rw [countActive_set_zero S.characters S.num_characters_orig S.realize
        hcm hact]
      omega
    · show countCur (S.current_states.set S.realize (-1)) S.num_characters_orig =
        S.num_characters - 1
      rw [countCur_set_neg S.current_states S.num_characters_orig S.realize
        hcm hcur (by omega)]
      omega
  have haiR : activeImpliesCur { S with
      tried_characters := []
      character_queue := []
      red_black := deleteIncident S.red_black (S.num_species_orig + S.realize)
      operation := 2
      colors := S.colors.set S.realize (RED + 1)
      characters := S.characters.set S.realize 0
      current_states := S.current_states.set S.realize (-1)
      num_characters := S.num_characters - 1 } := by
    intro c hc2
    show (S.current_states.set S.realize (-1)).getD c 0 ≠ -1
    by_cases hce : c = S.realize
    · exfalso
      apply hc2
      subst hce
      show (S.characters.set S.realize 0).getD S.realize 0 = 0
      exact getD_set_self S.characters S.realize 0 0 (by omega)
    · rw [getD_set_ne S.current_states S.realize c (-1) 0 (fun hx => hce hx.symm)]
      refine hai c ?_
      have hcc : (S.characters.set S.realize 0).getD c 0 = S.characters.getD c 0 :=
        getD_set_ne S.characters S.realize c 0 0 (fun hx => hce hx.symm)
      rw [← hcc]
      exact hc2
  obtain ⟨T, hT⟩ := Option.isSome_iff_exists.mp (cleanup_isSome _ haiR)
  have hacc := accept_finish_eq _ T hch (by
    show S.num_characters_orig ≤ (S.current_states.set S.realize (-1)).length
    rw [List.length_set]
    omega) hT
  rw [heq, hacc]
  have spc := cleanup_spec _ T hT
  have hkeep := cleanup_char_keep _ T hT S.realize (Or.inr (by
    show (S.characters.set S.realize 0).getD S.realize 0 = 0
    exact getD_set_self S.characters S.realize 0 0 (by omega)))
  refine ⟨hmpos, rfl, ?_, ?_, ?_, ?_, ?_, ?_⟩
  · simp only [Option.map_some']
    rw [spc.1]
  · simp only [Option.map_some']
    rw [spc.2.1]
    show some ((S.colors.set S.realize (RED + 1)).getD S.realize 0) = some REMOVED
    rw [getD_set_self S.colors S.realize (RED + 1) 0 (by
      have := hw.2.2.2
      omega)]
    rfl
  · simp only [Option.map_some']
    rw [hkeep.2]
    show some ((S.current_states.set S.realize (-1)).getD S.realize 0) =
      some (-1 : Int)
    rw [getD_set_self S.current_states S.realize (-1) 0 (by omega)]
  · simp only [Option.map_some']
    rw [hkeep.1]
    show some ((S.characters.set S.realize 0).getD S.realize 0) = some (0 : Nat)
    rw [getD_set_self S.characters S.realize 0 0 (by omega)]
  · simp only [Option.map_some']
    have hm := cleanup_m_keep _ T hT (fun c hc2 hact2 => by
      show ¬ isolatedV (deleteIncident S.red_black
        (S.num_species_orig + S.realize)) (S.num_species_orig + c)
      have hce : c ≠ S.realize := by
        intro hx
        apply hact2
        subst hx
        show (S.characters.set S.realize 0).getD S.realize 0 = 0
        exact getD_set_self S.characters S.realize 0 0 (by omega)
      refine hno c hc2 hce ?_
      have hcc : (S.characters.set S.realize 0).getD c 0 = S.characters.getD c 0 :=
        getD_set_ne S.characters S.realize c 0 0 (fun hx => hce hx.symm)
      rw [← hcc]
      exact hact2)
    rw [hm]
  · simp only [Option.map_some']
    rw [spc.2.2.2.2.2.1]

/-- C4 witness: the removal realization evaluated on the one-species,
one-character RED state stC6. -/
theorem c4_witness :
    Option.map (fun p => p.2) (realize_character stC6) = some true ∧
    Option.map (fun p => p.1.operation) (realize_character stC6) = some 2 ∧
    Option.map (fun p => p.1.num_characters) (realize_character stC6) =
      some (stC6.num_characters - 1) :=
  ⟨(c4_red_removal stC6 (by decide) (by decide) (by decide) (by decide)
      (by decide) (by decide) (by decide) (by decide)).2.1,
   (c4_red_removal stC6 (by decide) (by decide) (by decide) (by decide)
      (by decide) (by decide) (by decide) (by decide)).2.2.2.2.2.2.2,
   (c4_red_removal stC6 (by decide) (by decide) (by decide) (by decide)
      (by decide) (by decide) (by decide) (by decide)).2.2.2.2.2.2.1⟩

/-- C4 counterexample: on the spec's S6 input 2 2 / 1 0 / 1 1, the first
realization of character 0 is accepted with operation 1 — but cleanup then
already removes character 0 (its vertex became isolated) — and the second
realization of character 0 is an assertion failure (none), not an accepted
removal with operation 2. -/
theorem c4_counterexample :
    Option.map (fun p => (p.1.operation, p.2, p.1.characters.getD 0 0))
      (realize_character s6init) = some (1, true, 0) ∧
    Option.bind (realize_character s6init) (fun p => realize_character p.1) =
      none := by
  decide

/-- C2 (amended): after loading, after cleanup and after every realization,
current_state[c] == -1 holds exactly when char_active[c] == 0, and
colors[c] == REMOVED implies char_active[c] == 0; the converse of the latter
fails (cleanup deactivates without recoloring), so the claimed three-way
equivalence does not hold. -/
theorem c2_invariant :
    (∀ (n m : Nat) (cells : List Nat), inv2 (read_instance n m cells)) ∧
    (∀ S T : state_s, wf S → inv2 S → cleanup S = some T → inv2 T) ∧
    (∀ (S : state_s) (p : state_s × Bool), wf S → inv2 S →
      realize_character S = some p → inv2 p.1) := by
  refine ⟨?_, ?_, ?_⟩
  · intro n m cells c hcm
    have hcm2 : c < m := hcm
    have h1 : (read_instance n m cells).current_states.getD c 0 = 0 :=
      getD_replicate_lt m c 0 0 hcm2
    have h2 : (read_instance n m cells).characters.getD c 0 = 1 :=
      getD_replicate_lt m c 1 0 hcm2
    have h3 : (read_instance n m cells).colors.getD c 0 = BLACK :=
      getD_replicate_lt m c BLACK 0 hcm2
    rw [h1, h2, h3]
    refine ⟨⟨fun hx => absurd hx (by decide), fun hx => absurd hx (by decide)⟩,
      fun hx => absurd hx (by decide)⟩
  · exact fun S T hw hi h => cleanup_inv2 S T hw h hi
  · intro S p hw hi h
    have h0 := realize_check S p h
    by_cases hb : S.colors.getD S.realize 0 = BLACK
    · rw [realize_black_eq S h0 hb] at h
      obtain ⟨hchd, hcl, -⟩ := accept_finish_some _ _ h
      refine cleanup_inv2 _ p.1 ?_ hcl ?_
      · exact ⟨hw.1, hw.2.1,
          (List.length_set S.current_states S.realize 1).trans hw.2.2.1,
          (List.length_set S.colors S.realize RED).trans hw.2.2.2⟩
      · intro c hcm
        by_cases hchm : S.realize < S.num_characters_orig
        · by_cases hce : c = S.realize
          · subst hce
            by_cases hact : S.characters.getD S.realize 0 = 0
            · exfalso
              have hcur : S.current_states.getD S.realize 0 = -1 :=
                (hi S.realize hchm).1.mpr hact
              have hinc := countCur_set_inc S.current_states
                S.num_characters_orig S.realize 1 hchm hcur (by omega)
              rw [check_state_zero_iff] at h0 hchd
              have hx1 : countCur (S.current_states.set S.realize 1)
                  S.num_characters_orig = S.num_characters := hchd.2.2.2.2
              have hx2 : countCur S.current_states S.num_characters_orig =
                  S.num_characters := h0.2.2.2.2
              omega
            · constructor
              · show (S.current_states.set S.realize 1).getD S.realize 0 = -1 ↔
                  S.characters.getD S.realize 0 = 0
                rw [getD_set_self S.current_states S.realize 1 0 (by
                  have := hw.2.2.1
                  omega)]
                exact ⟨fun hx => absurd hx (by decide), fun hx => absurd hx hact⟩
              · show (S.colors.set S.realize RED).getD S.realize 0 = REMOVED →
                  S.characters.getD S.realize 0 = 0
                rw [getD_set_self S.colors S.realize RED 0 (by
                  have := hw.2.2.2
                  omega)]
                exact fun hx => absurd hx (by decide)
          · have hn1 : (S.current_states.set S.realize 1).getD c 0 =
                S.current_states.getD c 0 :=
              getD_set_ne S.current_states S.realize c 1 0 (fun hx => hce hx.symm)
            have hn2 : (S.colors.set S.realize RED).getD c 0 =
                S.colors.getD c 0 :=
              getD_set_ne S.colors S.realize c RED 0 (fun hx => hce hx.symm)
            show ((S.current_states.set S.realize 1).getD c 0 = -1 ↔
                S.characters.getD c 0 = 0) ∧
              ((S.colors.set S.realize RED).getD c 0 = REMOVED →
                S.characters.getD c 0 = 0)
            rw [hn1, hn2]
            exact hi c hcm
        · have hs1 : S.current_states.set S.realize 1 = S.current_states :=
            set_oob S.current_states S.realize 1 (by
              have := hw.2.2.1
              omega)
          have hs2 : S.colors.set S.realize RED = S.colors :=
            set_oob S.colors S.realize RED (by
              have := hw.2.2.2
              omega)
          show ((S.current_states.set S.realize 1).getD c 0 = -1 ↔
              S.characters.getD c 0 = 0) ∧
            ((S.colors.set S.realize RED).getD c 0 = REMOVED →
              S.characters.getD c 0 = 0)
          rw [hs1, hs2]
          exact hi c hcm
    · by_cases hr : S.colors.getD S.realize 0 = RED
      · by_cases hD : speciesD S = ∅
        · by_cases hact : S.characters.getD S.realize 0 = 0
          · rw [realize_removed_char_asserts S h0 hr hD hact] at h
            exact Option.noConfusion h
          · have hcm : S.realize < S.num_characters_orig := by
              rw [← hw.2.1]
              exact getD_pos_lt _ _ hact
            have hcur : S.current_states.getD S.realize 0 ≠ -1 :=
              fun hx => hact ((hi _ hcm).1.mp hx)
            rw [realize_red_remove_eq S h0 hr hD hcm
              (Nat.pos_of_ne_zero hact) hcur] at h
            obtain ⟨hchd, hcl, -⟩ := accept_finish_some _ _ h
            refine cleanup_inv2 _ p.1 ?_ hcl ?_
            · exact ⟨hw.1,
                (List.length_set S.characters S.realize 0).trans hw.2.1,
                (List.length_set S.current_states S.realize (-1)).trans hw.2.2.1,
                (List.length_set S.colors S.realize (RED + 1)).trans hw.2.2.2⟩
            · intro c hcm2
              by_cases hce : c = S.realize
              · subst hce
                constructor
                · show (S.current_states.set S.realize (-1)).getD S.realize 0 =
                      -1 ↔ (S.characters.set S.realize 0).getD S.realize 0 = 0
                  rw [getD_set_self S.current_states S.realize (-1) 0 (by
                      have := hw.2.2.1
                      omega),
                    getD_set_self S.characters S.realize 0 0 (by
                      have := hw.2.1
                      omega)]
                  exact iff_of_true rfl rfl
                · intro hx
                  show (S.characters.set S.realize 0).getD S.realize 0 = 0
                  exact getD_set_self S.characters S.realize 0 0 (by
                    have := hw.2.1
                    omega)
              · have hn1 : (S.current_states.set S.realize (-1)).getD c 0 =
                    S.current_states.getD c 0 :=
                  getD_set_ne S.current_states S.realize c (-1) 0
                    (fun hx => hce hx.symm)
                have hn2 : (S.characters.set S.realize 0).getD c 0 =
                    S.characters.getD c 0 :=
                  getD_set_ne S.characters S.realize c 0 0 (fun hx => hce hx.symm)
                have hn3 : (S.colors.set S.realize (RED + 1)).getD c 0 =
                    S.colors.getD c 0 :=
                  getD_set_ne S.colors S.realize c (RED + 1) 0
                    (fun hx => hce hx.symm)
                show ((S.current_states.set S.realize (-1)).getD c 0 = -1 ↔
                    (S.characters.set S.realize 0).getD c 0 = 0) ∧
                  ((S.colors.set S.realize (RED + 1)).getD c 0 = REMOVED →
                    (S.characters.set S.realize 0).getD c 0 = 0)
                rw [hn1, hn2, hn3]
                exact hi c hcm2
        · rw [realize_red_reject S h0 hr hD] at h
          have hp := Option.some_injective _ h
          cases hp
          intro c hcm
          exact hi c hcm
      · rw [realize_other_eq S h0 hb hr] at h
        obtain ⟨hchd, hcl, -⟩ := accept_finish_some _ _ h
        refine cleanup_inv2 _ p.1 ?_ hcl ?_
        · exact hw
        · intro c hcm
          exact hi c hcm

/-- C2 witness: the invariant preservation applied to the cleanup of the
loaded 1 x 1 instance. -/
theorem c2_witness :
    wf init11 ∧ inv2 init11 ∧ inv2 init11 :=
  ⟨by decide, by decide,
    c2_invariant.2.1 init11 init11 (by decide) (by decide) (by decide)⟩

/-- C2 counterexample: realizing the BLACK character of the 1 x 1 instance is
accepted, and in the resulting state character 0 is inactive with
current_state -1, yet its color is RED, not REMOVED: the three conditions of
the claim are not pairwise equivalent. -/
theorem c2_counterexample :
    Option.map (fun p => (p.2, p.1.characters.getD 0 0,
      p.1.current_states.getD 0 0, p.1.colors.getD 0 0))
      (realize_character init11) = some (true, 0, -1, RED) ∧
    RED ≠ REMOVED := by
  decide
